import Mathlib

/-!
Shallow embedding, in Lean 4, of the coredump-listing parser and the
cache-backed dump registry of the mcp-systemd-coredump repository.

The repository contains three revisions of its server source:
an early tabular-listing revision (src/index.ts, here the definitions
suffixed Legacy), a later tabular revision that drops the trailing size
column and keeps only rows whose COREFILE status is the literal present
(the revision embedded here with suffix P6), and the final revision whose
listing path decodes the quasi-JSON output of the listing tool and whose
registry carries the detail / extract / remove / stack-trace operations
(embedded below as the Env/St state functions).

Modelling conventions:
  - JavaScript strings are List Char (wrapped into String at record
    boundaries); regular-expression whitespace is modelled by the six
    ASCII whitespace characters.
  - JavaScript array index / slice / indexOf arithmetic is modelled on
    Int with the negative-index and clamping semantics of Array.prototype;
    an out-of-range read yields none (JS undefined).
  - JSON.parse is modelled by an executable fuel-based tokenizer and a
    recursive-descent reader of the fragment the listing tool emits:
    an array of flat (non-nested) objects whose scalar values are
    escape-free strings, integers, booleans and null.  Inputs outside
    this fragment are treated as parse failures.
  - Date.prototype.toLocaleString composed with the microsecond division
    is an opaque parameter (Env.fmtTime), since its output is
    locale-dependent but is a pure function of the time field.
  - External processes are an opaque parameter Env.run from the exact
    command lines the code spawns to either a stdout string or an error
    message; rm -f is modelled as always succeeding.  A simple
    set-of-paths file system tracks files the operations create/delete.
-/

/-- Whitespace class of the JavaScript regular-expression escape (ASCII part). -/
def regexWs (c : Char) : Bool :=
  c = ' ' || c = '\t' || c = '\n' || c = '\r' || c = '\x0b' || c = '\x0c'

/-- Whitespace accepted between JSON tokens by JSON.parse. -/
def jsonWs (c : Char) : Bool :=
  c = ' ' || c = '\t' || c = '\n' || c = '\r'

/-- Model of String.prototype.trim (ASCII whitespace). -/
def jsTrim (l : List Char) : List Char :=
  ((l.dropWhile regexWs).reverse.dropWhile regexWs).reverse

/-- One step of splitting a character list on a separator, foldr-style. -/
def splitStep (sep : Char) (ch : Char) (acc : List (List Char)) : List (List Char) :=
  if ch = sep then [] :: acc
  else
    match acc with
    | a :: as => (ch :: a) :: as
    | [] => [[ch]]

/-- Model of String.prototype.split with a single-character separator. -/
def splitOnChar (sep : Char) (l : List Char) : List (List Char) :=
  l.foldr (splitStep sep) [[]]

/-- One step of whitespace-run splitting, foldr-style. -/
def tokStep (ch : Char) (acc : List (List Char)) : List (List Char) :=
  if regexWs ch then [] :: acc
  else
    match acc with
    | a :: as => (ch :: a) :: as
    | [] => [[ch]]

/-- Model of line.trim().split of a whitespace-run regular expression:
the maximal non-whitespace runs of the line, in order. -/
def tokensOf (l : List Char) : List String :=
  ((l.foldr tokStep [[]]).filter (fun t => !t.isEmpty)).map (fun t => String.mk t)

/-- Model of Array.prototype.indexOf: first index of x, or -1. -/
def jsIndexOf : List String → String → Int
  | [], _ => -1
  | a :: as, x =>
    if a = x then 0
    else
      let r := jsIndexOf as x
      if r = -1 then -1 else r + 1

/-- Model of a JavaScript array read arr i with an Int index:
none models the undefined produced by an out-of-range or negative index. -/
def jsElem (l : List α) (i : Int) : Option α :=
  if i < 0 then none else l.get? i.toNat

/-- Model of Array.prototype.slice with two Int arguments (negative
indices count from the end, both bounds clamped). -/
def jsSlice (l : List α) (s e : Int) : List α :=
  let n : Int := l.length
  let s' := (if s < 0 then max (n + s) 0 else min s n).toNat
  let e' := (if e < 0 then max (n + e) 0 else min e n).toNat
  (l.take e').drop s'

/-- Model of Array.prototype.join with a single-space separator. -/
def joinSpace : List String → String
  | [] => ""
  | [a] => a
  | a :: b :: as => a ++ " " ++ joinSpace (b :: as)

/-- Coercion of a possibly-undefined string into a template literal:
JavaScript renders undefined as the text undefined. -/
def jsTemplate : Option String → String
  | some s => s
  | none => "undefined"

/-- Decimal digits of a natural number, fuel-based so that it reduces. -/
def natToStrGo : Nat → Nat → List Char → List Char
  | 0, _, acc => acc
  | f + 1, n, acc =>
    let d := Char.ofNat (48 + n % 10)
    let n' := n / 10
    if n' = 0 then d :: acc else natToStrGo f n' (d :: acc)

/-- Decimal rendering of a natural number. -/
def natToStr (n : Nat) : String :=
  String.mk (natToStrGo (n + 1) n [])

/-- Decimal rendering of an integer, as JavaScript number-to-string on
integral values. -/
def intToStr (i : Int) : String :=
  if i < 0 then "-" ++ natToStr i.natAbs else natToStr i.toNat

/-- JSON scalar values of the fragment the listing tool emits. -/
inductive JValue where
  | null
  | bool (b : Bool)
  | num (n : Int)
  | str (s : String)
deriving DecidableEq

/-- Rendering of a possibly-missing JSON value inside a template literal. -/
def jsDisplay : Option JValue → String
  | none => "undefined"
  | some JValue.null => "null"
  | some (JValue.bool true) => "true"
  | some (JValue.bool false) => "false"
  | some (JValue.num n) => intToStr n
  | some (JValue.str s) => s

/-- The record the listing builds for each dump (interface CoreDumpInfo).
Fields that JavaScript can leave undefined at runtime are Option-typed. -/
structure CoreDumpInfo where
  id : String
  pid : Option String
  uid : Option String
  gid : Option String
  signal : Option String
  timestamp : String
  cmdline : Option String
  exe : Option String
  hostname : Option String
  coredump : Option String
deriving DecidableEq

/-- Numeric-signal translation of the structured listing path
(the switch on entry.sig, part_007 lines 215-226): a fixed table for the
common fault signals, with the default case rendering SIG followed by the
template coercion of the raw value. -/
def jsSignalName (sig : Option JValue) : String :=
  if sig = some (JValue.num 6) then "SIGABRT"
  else if sig = some (JValue.num 11) then "SIGSEGV"
  else if sig = some (JValue.num 4) then "SIGILL"
  else if sig = some (JValue.num 5) then "SIGTRAP"
  else if sig = some (JValue.num 8) then "SIGFPE"
  else if sig = some (JValue.num 9) then "SIGKILL"
  else "SIG" ++ jsDisplay sig

/-- Per-line tabular parse of the early revision
(src/index.ts, listCoredumps, lines 128-182): split on whitespace runs,
require at least 7 tokens, anchor on the first missing or present token,
read SIGNAL/GID/UID/PID backward from the anchor, join the leading tokens
into the timestamp and the trailing tokens into the executable path. -/
def parseListLineLegacy (line : List Char) : Option CoreDumpInfo :=
  if (jsTrim line).isEmpty then none
  else
    let parts := tokensOf line
    if parts.length < 7 then none
    else
      let m := jsIndexOf parts "missing"
      let ci := if m = -1 then jsIndexOf parts "present" else m
      if ci = -1 then none
      else
        let pid := jsElem parts (ci - 4)
        let uid := jsElem parts (ci - 3)
        let gid := jsElem parts (ci - 2)
        let signal := jsElem parts (ci - 1)
        let timestamp := joinSpace (jsSlice parts 0 (ci - 4))
        let exe := joinSpace (jsSlice parts (ci + 1) parts.length)
        some { id := timestamp ++ "-" ++ jsTemplate pid
               pid := pid, uid := uid, gid := gid, signal := signal
               timestamp := timestamp
               cmdline := some "", exe := some exe, hostname := some ""
               coredump := none }

/-- The early revision listing over whole stdout: trim, split on
newlines, parse each line, skipping lines that do not parse. -/
def listCoredumpsLegacy (stdout : String) : List CoreDumpInfo :=
  (splitOnChar '\n' (jsTrim stdout.data)).filterMap parseListLineLegacy

/-- Per-line tabular parse of the later tabular revision
(part_006, listCoredumps, lines 653-721): after the 7-token minimum the
last token (the size column) is unconditionally popped, the anchor is the
first present token only (rows without it are dropped), and the remaining
extraction is positionally identical to the early revision. -/
def parseListLineP6 (line : List Char) : Option CoreDumpInfo :=
  if (jsTrim line).isEmpty then none
  else
    let parts0 := tokensOf line
    if parts0.length < 7 then none
    else
      let parts := parts0.dropLast
      let ci := jsIndexOf parts "present"
      if ci = -1 then none
      else
        let pid := jsElem parts (ci - 4)
        let uid := jsElem parts (ci - 3)
        let gid := jsElem parts (ci - 2)
        let signal := jsElem parts (ci - 1)
        let timestamp := joinSpace (jsSlice parts 0 (ci - 4))
        let exe := joinSpace (jsSlice parts (ci + 1) parts.length)
        some { id := timestamp ++ "-" ++ jsTemplate pid
               pid := pid, uid := uid, gid := gid, signal := signal
               timestamp := timestamp
               cmdline := some "", exe := some exe, hostname := some ""
               coredump := none }

/-- The later tabular revision listing over whole stdout. -/
def listCoredumpsP6 (stdout : String) : List CoreDumpInfo :=
  (splitOnChar '\n' (jsTrim stdout.data)).filterMap parseListLineP6

/-- The worked tabular example row of the specification. -/
def exampleRow : String :=
  "Sat 2023-06-17 01:50:45 JST    2465 1000  100 SIGABRT present  /usr/bin/cuteime 1.5M"

/-- Tokens of the JSON fragment the listing tool emits. -/
inductive Tok where
  | lbrack
  | rbrack
  | lbrace
  | rbrace
  | comma
  | colon
  | str (body : List Char)
  | num (n : Int)
  | tru
  | fls
  | nul
deriving DecidableEq

/-- Body of a JSON string after its opening quote: the escape-free run up
to the closing quote, together with the input past that quote.  A string
containing a backslash, or an unterminated string, is outside the
modelled fragment. -/
def strBody (l : List Char) : Option (List Char × List Char) :=
  match l.span (fun c => c != '"' && c != '\\') with
  | (b, '"' :: rest) => some (b, rest)
  | _ => none

/-- Numeric value of a run of decimal digits. -/
def digitsToNat (l : List Char) : Nat :=
  l.foldl (fun acc c => acc * 10 + (c.toNat - 48)) 0

/-- Outcome of one lexing step: a token with the remaining input, a
whitespace skip, or a lexing failure. -/
inductive LexStep where
  | emit (t : Tok) (rest : List Char)
  | skip (rest : List Char)
  | fail
deriving DecidableEq

/-- Literal-word lexing step: the three JSON keywords. -/
def lexWord (c : Char) (cs : List Char) : Option (Tok × List Char) :=
  if c = 't' then
    match cs with
    | 'r' :: 'u' :: 'e' :: r => some (Tok.tru, r)
    | _ => none
  else if c = 'f' then
    match cs with
    | 'a' :: 'l' :: 's' :: 'e' :: r => some (Tok.fls, r)
    | _ => none
  else if c = 'n' then
    match cs with
    | 'u' :: 'l' :: 'l' :: r => some (Tok.nul, r)
    | _ => none
  else none

/-- Number lexing step (integer fragment), falling back to the words. -/
def lexNum (c : Char) (cs : List Char) : Option (Tok × List Char) :=
  if c = '-' then
    match cs with
    | d :: cs2 =>
      if d.isDigit then
        match cs2.span Char.isDigit with
        | (ds, rest) => some (Tok.num (-(digitsToNat (d :: ds) : Int)), rest)
      else none
    | [] => none
  else if c.isDigit then
    match cs.span Char.isDigit with
    | (ds, rest) => some (Tok.num (digitsToNat (c :: ds)), rest)
  else lexWord c cs

/-- Punctuation and string lexing step, falling back to numbers. -/
def lexPunct (c : Char) (cs : List Char) : Option (Tok × List Char) :=
  if c = '[' then some (Tok.lbrack, cs)
  else if c = ']' then some (Tok.rbrack, cs)
  else if c = '{' then some (Tok.lbrace, cs)
  else if c = '}' then some (Tok.rbrace, cs)
  else if c = ',' then some (Tok.comma, cs)
  else if c = ':' then some (Tok.colon, cs)
  else if c = '"' then
    match strBody cs with
    | some (b, rest) => some (Tok.str b, rest)
    | none => none
  else lexNum c cs

/-- One step of the JSON tokenizer for the fragment at the first
character: whitespace skipping, then punctuation, strings, integer
numbers and the three literal words.  Any other character makes the
whole input unlexable. -/
def lexOne (c : Char) (cs : List Char) : LexStep :=
  if jsonWs c then LexStep.skip cs
  else
    match lexPunct c cs with
    | some (t, rest) => LexStep.emit t rest
    | none => LexStep.fail

/-- Remaining input of a successful lexing step. -/
def lexRest : LexStep → Option (List Char)
  | LexStep.emit _ r => some r
  | LexStep.skip r => some r
  | LexStep.fail => none

/-- Fuel-based JSON tokenizer: iterate the single step. -/
def tokenizeGo : Nat → List Char → Option (List Tok)
  | _, [] => some []
  | 0, _ :: _ => none
  | f + 1, c :: cs =>
    match lexOne c cs with
    | LexStep.skip rest => tokenizeGo f rest
    | LexStep.emit t rest => (tokenizeGo f rest).map (t :: ·)
    | LexStep.fail => none

/-- Tokenization with sufficient fuel. -/
def tokenize (l : List Char) : Option (List Tok) :=
  tokenizeGo l.length l

/-- A decoded flat JSON object: its members in source order. -/
abbrev JObj := List (String × JValue)

/-- Scalar value of a single token, if it is a value token. -/
def valOfTok : Tok → Option JValue
  | Tok.str b => some (JValue.str (String.mk b))
  | Tok.num n => some (JValue.num n)
  | Tok.tru => some (JValue.bool true)
  | Tok.fls => some (JValue.bool false)
  | Tok.nul => some JValue.null
  | _ => none

/-- Members of a flat object after its opening brace, returning the
member list and the tokens past the closing brace.  Mirrors JSON:
members are comma-separated string-keyed scalars, with no trailing comma. -/
def parseMembersGo : Nat → List Tok → Option (JObj × List Tok)
  | _, Tok.rbrace :: r => some ([], r)
  | f + 1, Tok.str k :: Tok.colon :: tv :: rest =>
    match valOfTok tv with
    | some v =>
      match rest with
      | Tok.comma :: rest2 =>
        match rest2 with
        | Tok.str _ :: _ =>
          (parseMembersGo f rest2).map (fun p => ((String.mk k, v) :: p.1, p.2))
        | _ => none
      | Tok.rbrace :: r => some ([(String.mk k, v)], r)
      | _ => none
    | none => none
  | _, _ => none

/-- Comma-separated flat objects, required to end exactly at the array
closing bracket with nothing after it. -/
def parseObjsGo : Nat → List Tok → Option (List JObj)
  | f + 1, Tok.lbrace :: ts1 =>
    match parseMembersGo ts1.length ts1 with
    | some (o, rest) =>
      match rest with
      | Tok.comma :: rest2 => (parseObjsGo f rest2).map (o :: ·)
      | [Tok.rbrack] => some [o]
      | _ => none
    | none => none
  | _, _ => none

/-- Token-level reading of a whole input as an array of flat objects. -/
def parseToks (ts : List Tok) : Option (List JObj) :=
  match ts with
  | [Tok.lbrack, Tok.rbrack] => some []
  | Tok.lbrack :: rest => parseObjsGo rest.length rest
  | _ => none

/-- Model of JSON.parse on the fragment, whole-input, array shape. -/
def jsonDecode (l : List Char) : Option (List JObj) :=
  (tokenize l).bind parseToks

/-- Model of JSON.parse on the fragment, whole-input, single flat object
shape (used by the object-by-object fallback path). -/
def jsonDecodeObj (l : List Char) : Option JObj :=
  match tokenize l with
  | some (Tok.lbrace :: ts1) =>
    match parseMembersGo ts1.length ts1 with
    | some (o, []) => some o
    | _ => none
  | _ => none

/-- First structured repair of part_007 line 157: each brace-close
followed only by whitespace and a brace-open becomes close-comma-open;
scanning is left to right and resumes after each replacement. -/
def repair1Go : Nat → List Char → List Char
  | _, [] => []
  | 0, l => l
  | f + 1, c :: cs =>
    if c = '}' then
      match (cs.span regexWs).2 with
      | z0 :: z1 =>
        if z0 = '{' then '}' :: ',' :: '{' :: repair1Go f z1
        else '}' :: repair1Go f cs
      | [] => '}' :: repair1Go f cs
    else c :: repair1Go f cs

/-- Second structured repair of part_007 line 158: whitespace between a
brace-close and the array closing bracket is removed. -/
def repair2Go : Nat → List Char → List Char
  | _, [] => []
  | 0, l => l
  | f + 1, c :: cs =>
    if c = '}' then
      match (cs.span regexWs).2 with
      | z0 :: z1 =>
        if z0 = ']' then '}' :: ']' :: repair2Go f z1
        else '}' :: repair2Go f cs
      | [] => '}' :: repair2Go f cs
    else c :: repair2Go f cs

/-- Third structured repair of part_007 line 159: only the first
occurrence of bracket-open whitespace brace-open loses its whitespace. -/
def repair3Go : Nat → List Char → List Char
  | _, [] => []
  | 0, l => l
  | f + 1, c :: cs =>
    if c = '[' then
      match (cs.span regexWs).2 with
      | z0 :: z1 =>
        if z0 = '{' then '[' :: '{' :: z1
        else '[' :: repair3Go f cs
      | [] => '[' :: repair3Go f cs
    else c :: repair3Go f cs

/-- First repair with sufficient fuel. -/
def repair1 (l : List Char) : List Char := repair1Go l.length l

/-- Second repair with sufficient fuel. -/
def repair2 (l : List Char) : List Char := repair2Go l.length l

/-- Third repair with sufficient fuel. -/
def repair3 (l : List Char) : List Char := repair3Go l.length l

/-- The composed structured-mode repair exactly as the code chains the
three replacements over the raw stdout. -/
def correctedJson (l : List Char) : List Char :=
  repair3 (repair2 (repair1 l))

/-- Model of the global match of brace-open, non-braces, brace-close
(part_007 line 174): the non-overlapping balanced flat-object substrings,
scanned left to right. -/
def extractObjectsGo : Nat → List Char → List (List Char)
  | _, [] => []
  | 0, _ => []
  | f + 1, '{' :: cs =>
    match cs.span (fun c => c != '{' && c != '}') with
    | (mid, '}' :: rest) => ('{' :: (mid ++ ['}'])) :: extractObjectsGo f rest
    | (_, '{' :: rest2) => extractObjectsGo f ('{' :: rest2)
    | _ => []
  | f + 1, _ :: cs => extractObjectsGo f cs

/-- Object-substring extraction with sufficient fuel. -/
def extractObjects (l : List Char) : List (List Char) :=
  extractObjectsGo l.length l

/-- Model of the cleanup chain of part_007 lines 181-184: newlines and
tabs become spaces and every whitespace run collapses to one space. -/
def collapseWsGo : Nat → List Char → List Char
  | _, [] => []
  | 0, l => l
  | f + 1, c :: cs =>
    if regexWs c then ' ' :: collapseWsGo f (cs.dropWhile regexWs)
    else c :: collapseWsGo f cs

/-- Whitespace collapsing with sufficient fuel. -/
def collapseWs (l : List Char) : List Char := collapseWsGo l.length l

/-- First character class of a bare JSON key in the repair regular
expression: a letter or underscore. -/
def identStart (c : Char) : Bool :=
  (c ≥ 'a' && c ≤ 'z') || (c ≥ 'A' && c ≤ 'Z') || c = '_'

/-- Continuation character class of a bare JSON key. -/
def identCont (c : Char) : Bool :=
  identStart c || (c ≥ '0' && c ≤ '9')

/-- Model of the key-quoting replacement of part_007 line 186: after a
brace-open or comma, optionally spaced, a bare identifier followed by an
optionally spaced colon gains quotes; scanning resumes past the colon. -/
def fixKeysGo : Nat → List Char → List Char
  | _, [] => []
  | 0, l => l
  | f + 1, c :: cs =>
    if c = '{' || c = ',' then
      let p1 := cs.span regexWs
      match p1.2 with
      | i0 :: irest =>
        if identStart i0 then
          let p2 := irest.span identCont
          let p3 := p2.2.span regexWs
          match p3.2 with
          | ':' :: rest2 =>
            c :: (p1.1 ++ ('"' :: (i0 :: p2.1) ++ '"' :: ':' :: fixKeysGo f rest2))
          | _ => c :: fixKeysGo f cs
        else c :: fixKeysGo f cs
      | [] => c :: fixKeysGo f cs
    else c :: fixKeysGo f cs

/-- Key quoting with sufficient fuel. -/
def fixKeys (l : List Char) : List Char := fixKeysGo l.length l

/-- Property read on a decoded object, with the later-member-wins
semantics of JavaScript object construction from duplicate JSON keys. -/
def objGet (o : JObj) (k : String) : Option JValue :=
  (o.reverse.find? (fun p => p.1 == k)).map (fun p => p.2)

/-- Strict-equality filter of the structured path: the corefile member is
exactly the string present. -/
def corefilePresent (e : JObj) : Bool :=
  objGet e "corefile" == some (JValue.str "present")

/-- The fallback entry list of part_007 lines 174-192: every balanced
flat-object substring, cleaned and key-quoted, that then decodes; the
rest are silently dropped. -/
def fallbackEntries (stdout : List Char) : List JObj :=
  (extractObjects stdout).filterMap (fun o => jsonDecodeObj (fixKeys (collapseWs o)))

/-- The entry list the structured listing converts, part_007 lines
153-204: the bulk-repaired decode if it succeeds, otherwise the fallback
extraction; in either path the present-only filter applies when asked. -/
def structuredEntries (stdout : List Char) (onlyPresent : Bool) : List JObj :=
  match jsonDecode (correctedJson stdout) with
  | some arr => if onlyPresent then arr.filter corefilePresent else arr
  | none =>
    let allEntries := fallbackEntries stdout
    if onlyPresent then allEntries.filter corefilePresent else allEntries

/-- Error codes of the protocol SDK actually available to the server
(the McpError codes used by the code are InvalidParams, InternalError and
MethodNotFound; the enumeration has no not-found member). -/
inductive ErrorCode where
  | parseError
  | invalidRequest
  | methodNotFound
  | invalidParams
  | internalError
deriving DecidableEq

/-- The protocol error value the operations throw. -/
structure McpError where
  code : ErrorCode
  message : String
deriving DecidableEq

/-- Numeric rendering of a protocol error code. -/
def errorCodeNum : ErrorCode → String
  | ErrorCode.parseError => "-32700"
  | ErrorCode.invalidRequest => "-32600"
  | ErrorCode.methodNotFound => "-32601"
  | ErrorCode.invalidParams => "-32602"
  | ErrorCode.internalError => "-32603"

/-- The message property of a thrown McpError as the SDK renders it. -/
def mcpMessage (e : McpError) : String :=
  "MCP error " ++ errorCodeNum e.code ++ ": " ++ e.message

/-- The external command lines the registry spawns, by shape. -/
inductive ExtCmd where
  | listJson
  | info (pid : Option String)
  | dump (pid : Option String) (out : String)
  | del (pid : Option String)
  | echoFile (path : String) (content : String)
  | gdb (exe : Option String) (core : Option String) (cmdFile : String)
  | rmf (path : String)
deriving DecidableEq

/-- The environment: outcome of each spawned command (stdout or error
message), and the locale-dependent time rendering of the structured
listing (Date construction from the divided microsecond field composed
with toLocaleString), which is a pure function of the time member. -/
structure Env where
  run : ExtCmd → Except String String
  fmtTime : Option JValue → String

/-- Registry state: the in-memory id-to-record map (insertion-ordered
association list with unique keys, as a JavaScript Map) and the set of
files the modelled commands have created and not yet removed. -/
structure St where
  dumps : List (String × CoreDumpInfo)
  fs : List String
deriving DecidableEq

/-- Map.get, as used through Map.has plus the non-null assertion. -/
def msGet (m : List (String × CoreDumpInfo)) (k : String) : Option CoreDumpInfo :=
  (m.find? (fun p => p.1 == k)).map (fun p => p.2)

/-- Map.set: replace in place if the key exists, else append. -/
def msSet : List (String × CoreDumpInfo) → String → CoreDumpInfo → List (String × CoreDumpInfo)
  | [], k, v => [(k, v)]
  | (k', v') :: rest, k, v =>
    if k' = k then (k, v) :: rest else (k', v') :: msSet rest k v

/-- Map.delete on a unique-key association list. -/
def msDelete (m : List (String × CoreDumpInfo)) (k : String) : List (String × CoreDumpInfo) :=
  m.filter (fun p => p.1 != k)

/-- A created file enters the file-system set once. -/
def fsAdd (p : String) (fs : List String) : List String :=
  if p ∈ fs then fs else p :: fs

/-- Forced removal (rm -f): drop the path, succeeding either way. -/
def fsRemove (p : String) (fs : List String) : List String :=
  fs.filter (fun q => q != p)

/-- Model of x.toString() on a possibly-absent member: defined on
strings, numbers and booleans, a TypeError on null or undefined. -/
def jsToStr : Option JValue → Except String String
  | some (JValue.str s) => Except.ok s
  | some (JValue.num n) => Except.ok (intToStr n)
  | some (JValue.bool true) => Except.ok "true"
  | some (JValue.bool false) => Except.ok "false"
  | some JValue.null => Except.error "Cannot read properties of null (reading 'toString')"
  | none => Except.error "Cannot read properties of undefined (reading 'toString')"

/-- The executable-path member is stored raw (entry.exe); a non-string
value is kept by its display rendering, an absent one stays undefined. -/
def exeOfVal : Option JValue → Option String
  | none => none
  | some (JValue.str s) => some s
  | some v => some (jsDisplay (some v))

/-- Conversion of one decoded entry into a CoreDumpInfo, part_007 lines
207-242: the timestamp and id never fail, while reading toString of a
missing or null pid, uid or gid throws (in that evaluation order). -/
def convertEntry (fmtTime : Option JValue → String) (e : JObj) : Except String CoreDumpInfo :=
  let timestamp := fmtTime (objGet e "time")
  let id := timestamp ++ "-" ++ jsDisplay (objGet e "pid")
  let signalName := jsSignalName (objGet e "sig")
  match jsToStr (objGet e "pid") with
  | Except.error m => Except.error m
  | Except.ok pid =>
    match jsToStr (objGet e "uid") with
    | Except.error m => Except.error m
    | Except.ok uid =>
      match jsToStr (objGet e "gid") with
      | Except.error m => Except.error m
      | Except.ok gid =>
        Except.ok { id := id
                    pid := some pid, uid := some uid, gid := some gid
                    signal := some signalName, timestamp := timestamp
                    cmdline := some "", exe := exeOfVal (objGet e "exe")
                    hostname := some "", coredump := none }

/-- The conversion loop over the entry list: each converted record is
inserted into the (already cleared) map and collected; the first failing
entry aborts the loop, keeping the partially-filled map. -/
def convertEntriesGo (fmtTime : Option JValue → String) :
    List JObj → List (String × CoreDumpInfo) → List CoreDumpInfo →
    Except String (List CoreDumpInfo) × List (String × CoreDumpInfo)
  | [], m, acc => (Except.ok acc.reverse, m)
  | e :: rest, m, acc =>
    match convertEntry fmtTime e with
    | Except.error msg => (Except.error msg, m)
    | Except.ok d => convertEntriesGo fmtTime rest (msSet m d.id d) (d :: acc)

/-- The structured listing operation of the final revision, part_007
lines 142-252: spawn the listing command, clear the map, decode the
output through the repair paths, convert each entry.  A spawn failure or
a conversion failure surfaces as InternalError; decode failures never do. -/
def listCoredumps (env : Env) (onlyPresent : Bool) (st : St) :
    Except McpError (List CoreDumpInfo) × St × List ExtCmd :=
  match env.run ExtCmd.listJson with
  | Except.error e =>
    (Except.error ⟨ErrorCode.internalError, "Failed to list coredumps: " ++ e⟩,
     st, [ExtCmd.listJson])
  | Except.ok stdout =>
    let entries := structuredEntries stdout.data onlyPresent
    match convertEntriesGo env.fmtTime entries [] [] with
    | (Except.ok ds, m) => (Except.ok ds, { st with dumps := m }, [ExtCmd.listJson])
    | (Except.error msg, m) =>
      (Except.error ⟨ErrorCode.internalError, "Failed to list coredumps: " ++ msg⟩,
       { st with dumps := m }, [ExtCmd.listJson])

/-- The refresh-on-miss prologue shared verbatim by getCoredumpInfo,
extractCoredump, removeCoredump and getStackTrace: a cached record is
returned at once; otherwise one listing refresh runs and the map is
re-checked once, an id still absent failing with the InvalidParams code
and a not-found message. -/
def resolveDump (env : Env) (st : St) (id : String) :
    Except McpError CoreDumpInfo × St × List ExtCmd :=
  match msGet st.dumps id with
  | some cd => (Except.ok cd, st, [])
  | none =>
    match listCoredumps env false st with
    | (Except.error e, st', log) => (Except.error e, st', log)
    | (Except.ok _, st', log) =>
      match msGet st'.dumps id with
      | some cd => (Except.ok cd, st', log)
      | none =>
        (Except.error ⟨ErrorCode.invalidParams, "Coredump with ID " ++ id ++ " not found"⟩,
         st', log)

/-- One colon-label line of the detail output: split on the colon with
limit two, trim both pieces, and recognize the two labels. -/
def applyInfoLine (cd : CoreDumpInfo) (line : List Char) : CoreDumpInfo :=
  let pieces := splitOnChar ':' line
  let key := (pieces.get? 0).map (fun p => String.mk (jsTrim p))
  let value := (pieces.get? 1).map (fun p => String.mk (jsTrim p))
  if key = some "Command Line" then { cd with cmdline := value }
  else if key = some "Hostname" then { cd with hostname := value }
  else cd

/-- The label scan of the detail output over all its lines. -/
def applyInfoLines (cd : CoreDumpInfo) (out : List Char) : CoreDumpInfo :=
  (splitOnChar '\n' (jsTrim out)).foldl applyInfoLine cd

/-- getCoredumpInfo of the final revision, part_007 lines 257-296. -/
def getCoredumpInfo (env : Env) (st : St) (id : String) :
    Except McpError CoreDumpInfo × St × List ExtCmd :=
  match resolveDump env st id with
  | (Except.error e, st', log) => (Except.error e, st', log)
  | (Except.ok cd, st', log) =>
    match env.run (ExtCmd.info cd.pid) with
    | Except.error e =>
      (Except.error ⟨ErrorCode.internalError, "Failed to get coredump info: " ++ e⟩,
       st', log ++ [ExtCmd.info cd.pid])
    | Except.ok out =>
      let cd' := applyInfoLines cd out.data
      (Except.ok cd', { st' with dumps := msSet st'.dumps id cd' },
       log ++ [ExtCmd.info cd.pid])

/-- extractCoredump of the final revision, part_007 lines 301-330. -/
def extractCoredump (env : Env) (st : St) (id : String) (outputPath : String) :
    Except McpError String × St × List ExtCmd :=
  match resolveDump env st id with
  | (Except.error e, st', log) => (Except.error e, st', log)
  | (Except.ok cd, st', log) =>
    match env.run (ExtCmd.dump cd.pid outputPath) with
    | Except.error e =>
      (Except.error ⟨ErrorCode.internalError, "Failed to extract coredump: " ++ e⟩,
       st', log ++ [ExtCmd.dump cd.pid outputPath])
    | Except.ok _ =>
      let cd' := { cd with coredump := some outputPath }
      (Except.ok outputPath,
       { dumps := msSet st'.dumps id cd', fs := fsAdd outputPath st'.fs },
       log ++ [ExtCmd.dump cd.pid outputPath])

/-- removeCoredump of the final revision, part_007 lines 335-363. -/
def removeCoredump (env : Env) (st : St) (id : String) :
    Except McpError Bool × St × List ExtCmd :=
  match resolveDump env st id with
  | (Except.error e, st', log) => (Except.error e, st', log)
  | (Except.ok cd, st', log) =>
    match env.run (ExtCmd.del cd.pid) with
    | Except.error e =>
      (Except.error ⟨ErrorCode.internalError, "Failed to remove coredump: " ++ e⟩,
       st', log ++ [ExtCmd.del cd.pid])
    | Except.ok _ =>
      (Except.ok true, { st' with dumps := msDelete st'.dumps id },
       log ++ [ExtCmd.del cd.pid])

/-- One stack frame as the debugger-output scan builds it. -/
structure StackFrame where
  index : Nat
  address : Option String
  function : String
  args : String
  location : Option String
  line : Option String
deriving DecidableEq

/-- The derived stack trace. -/
structure StackTraceInfo where
  frames : List StackFrame
  threadId : Option String
  signal : Option String
deriving DecidableEq

/-- Boolean list-prefix test on characters. -/
def hasPrefixL : List Char → List Char → Bool
  | [], _ => true
  | _ :: _, [] => false
  | p :: ps, c :: cs => p = c && hasPrefixL ps cs

/-- Boolean list-infix test on characters. -/
def hasInfixL (pat : List Char) : List Char → Bool
  | [] => hasPrefixL pat []
  | c :: cs => hasPrefixL pat (c :: cs) || hasInfixL pat cs

/-- The thread-header match of part_007 line 421: the line starts with
the word Thread, a digit run, a spaced parenthesis, and closes with a
parenthesis-colon somewhere after. -/
def matchThread (l : List Char) : Option String :=
  if hasPrefixL "Thread ".data l then
    let r := l.drop 7
    let p := r.span Char.isDigit
    if p.1.isEmpty then none
    else if hasPrefixL " (".data p.2 then
      if hasInfixL "):".data (p.2.drop 2) then some (String.mk p.1) else none
    else none
  else none

/-- Hexadecimal-ish address class of the frame pattern. -/
def hexCls (c : Char) : Bool :=
  c.isDigit || c = 'x' || (c ≥ 'a' && c ≤ 'f')

/-- Tail of the frame match after the address alternative has been
settled: function name up to the parenthesis, argument text up to the
closing parenthesis, then the optional at-file-colon-line clause. -/
def matchFrameTail (ds : List Char) (addr : Option (List Char)) (rem : List Char) :
    Option StackFrame :=
  let fn := rem.takeWhile (fun c => c != '(')
  if fn.isEmpty then none
  else
    match rem.dropWhile (fun c => c != '(') with
    | '(' :: r5 =>
      let argsL := r5.takeWhile (fun c => c != ')')
      match r5.dropWhile (fun c => c != ')') with
      | ')' :: r7 =>
        let locline :=
          if hasPrefixL " at ".data r7 then
            let r8 := r7.drop 4
            let fileL := r8.takeWhile (fun c => c != ':')
            match r8.dropWhile (fun c => c != ':') with
            | ':' :: r9 =>
              let dsl := r9.takeWhile Char.isDigit
              if fileL.isEmpty || dsl.isEmpty then (none, none)
              else (some (String.mk fileL), some (String.mk dsl))
            | _ => (none, none)
          else (none, none)
        some { index := digitsToNat ds, address := addr.map String.mk
               function := String.mk (jsTrim fn), args := String.mk argsL
               location := locline.1, line := locline.2 }
      | _ => none
    | _ => none

/-- The frame match of part_007 line 429, deterministically: a hash and
digit run, mandatory whitespace, an optional greedy address run followed
by the word in (with the single whitespace give-back the pattern allows),
then the function, arguments and optional source clause. -/
def matchFrame (l : List Char) : Option StackFrame :=
  match l with
  | '#' :: r =>
    let pd := r.span Char.isDigit
    if pd.1.isEmpty then none
    else
      let pw := pd.2.span regexWs
      if pw.1.isEmpty then none
      else
        let ph := pw.2.span hexCls
        if !ph.1.isEmpty && hasPrefixL " in ".data ph.2 then
          matchFrameTail pd.1 (some ph.1) (ph.2.drop 4)
        else if ph.1.isEmpty && pw.1.length ≥ 2 && hasPrefixL "in ".data pw.2 then
          matchFrameTail pd.1 none (pw.2.drop 3)
        else none
  | _ => none

/-- One line of debugger output: a thread header updates the current
thread id, a frame line appends a frame, anything else is ignored. -/
def gdbLineStep (st : List StackFrame × Option String) (line : List Char) :
    List StackFrame × Option String :=
  match matchThread line with
  | some tid => (st.1, some tid)
  | none =>
    match matchFrame line with
    | some fr => (st.1 ++ [fr], st.2)
    | none => st

/-- The debugger-output scan of part_007 lines 412-440. -/
def parseGdbOutput (l : List Char) : List StackFrame × Option String :=
  (splitOnChar '\n' l).foldl gdbLineStep ([], none)

/-- The fixed command-script path of getStackTrace. -/
def gdbCommandFile : String := "/tmp/gdb-commands.txt"

/-- The fixed command-script content of getStackTrace. -/
def gdbCommandsText : String := "set pagination off\nthread apply all bt full\nquit"

/-- The debugger phase of getStackTrace, part_007 lines 392-470: write
the command script, run the debugger on the record executable and dump
paths, scan the output, then delete the temporary dump (when one was
made) and the command script.  On a failure the catch block deletes only
the temporary dump — the command script is not removed there. -/
def gdbPhase (env : Env) (st : St) (logPre : List ExtCmd)
    (tempCorePath : Option String) (cd : CoreDumpInfo) :
    Except McpError StackTraceInfo × St × List ExtCmd :=
  let cleanupFs := fun fs =>
    match tempCorePath with
    | some p => fsRemove p fs
    | none => fs
  let cleanupLog :=
    match tempCorePath with
    | some p => [ExtCmd.rmf p]
    | none => []
  match env.run (ExtCmd.echoFile gdbCommandFile gdbCommandsText) with
  | Except.error e =>
    (Except.error ⟨ErrorCode.internalError, "Failed to get stack trace: " ++ e⟩,
     { st with fs := cleanupFs st.fs },
     logPre ++ [ExtCmd.echoFile gdbCommandFile gdbCommandsText] ++ cleanupLog)
  | Except.ok _ =>
    let st2 : St := { st with fs := fsAdd gdbCommandFile st.fs }
    match env.run (ExtCmd.gdb cd.exe cd.coredump gdbCommandFile) with
    | Except.error e =>
      (Except.error ⟨ErrorCode.internalError, "Failed to get stack trace: " ++ e⟩,
       { st2 with fs := cleanupFs st2.fs },
       logPre ++ [ExtCmd.echoFile gdbCommandFile gdbCommandsText,
                  ExtCmd.gdb cd.exe cd.coredump gdbCommandFile] ++ cleanupLog)
    | Except.ok stdout =>
      let parsed := parseGdbOutput stdout.data
      (Except.ok { frames := parsed.1, threadId := parsed.2, signal := cd.signal },
       { st2 with fs := fsRemove gdbCommandFile (cleanupFs st2.fs) },
       logPre ++ [ExtCmd.echoFile gdbCommandFile gdbCommandsText,
                  ExtCmd.gdb cd.exe cd.coredump gdbCommandFile] ++
         cleanupLog ++ [ExtCmd.rmf gdbCommandFile])

/-- getStackTrace of the final revision, part_007 lines 368-471: resolve
the record, extract to the fixed temporary path only when the record has
no recorded dump path yet (recording that temporary path on the record),
then run the debugger phase.  An extraction failure is caught, the
temporary path force-removed, and the error rethrown wrapped with the
message property of the caught protocol error. -/
def getStackTrace (env : Env) (st : St) (id : String) :
    Except McpError StackTraceInfo × St × List ExtCmd :=
  match resolveDump env st id with
  | (Except.error e, st', log) => (Except.error e, st', log)
  | (Except.ok cd, st1, log1) =>
    match cd.coredump with
    | some _ => gdbPhase env st1 log1 none cd
    | none =>
      let tempCorePath := "/tmp/core-" ++ jsTemplate cd.pid ++ "-temp.dump"
      match extractCoredump env st1 id tempCorePath with
      | (Except.error e, st2, log2) =>
        (Except.error ⟨ErrorCode.internalError,
           "Failed to get stack trace: " ++ mcpMessage e⟩,
         { st2 with fs := fsRemove tempCorePath st2.fs },
         log1 ++ log2 ++ [ExtCmd.rmf tempCorePath])
      | (Except.ok _, st2, log2) =>
        gdbPhase env st2 (log1 ++ log2) (some tempCorePath)
          { cd with coredump := some tempCorePath }

/-- Value of one hexadecimal digit. -/
def hexVal (c : Char) : Option Nat :=
  if c.isDigit then some (c.toNat - 48)
  else if c ≥ 'a' && c ≤ 'f' then some (c.toNat - 87)
  else if c ≥ 'A' && c ≤ 'F' then some (c.toNat - 55)
  else none

/-- Model of decodeURIComponent on the ASCII fragment: percent pairs
decode to their character, a malformed or non-ASCII sequence raises the
URIError the real function raises. -/
def decodeURIGo : Nat → List Char → Option (List Char)
  | _, [] => some []
  | 0, _ :: _ => none
  | f + 1, '%' :: h1 :: h2 :: rest =>
    match hexVal h1, hexVal h2 with
    | some a, some b =>
      if a * 16 + b < 128 then (decodeURIGo f rest).map (Char.ofNat (a * 16 + b) :: ·)
      else none
    | _, _ => none
  | _ + 1, '%' :: _ => none
  | f + 1, c :: cs => (decodeURIGo f cs).map (c :: ·)

/-- URI component decoding with sufficient fuel. -/
def decodeURIComponentM (s : String) : Option String :=
  (decodeURIGo s.data.length s.data).map String.mk

/-- The raw arguments object of a tool call: each expected property is
either absent (the caller omitted it) or some JSON value. -/
structure ToolArgs where
  id : Option JValue
  outputPath : Option JValue
deriving DecidableEq

/-- The get_coredump_info tool case of the call-tool handler, part_007
lines 718-737: the id argument passes through the String coercion, the
emptiness guard, and URI decoding before the registry lookup.  The
textual JSON rendering of the reply is not modelled; the reply carries
the record itself. -/
def handleGetCoredumpInfo (env : Env) (st : St) (args : ToolArgs) :
    Except McpError CoreDumpInfo × St × List ExtCmd :=
  let id := jsDisplay args.id
  if id = "" then
    (Except.error ⟨ErrorCode.invalidParams, "Coredump ID is required"⟩, st, [])
  else
    match decodeURIComponentM id with
    | none => (Except.error ⟨ErrorCode.internalError, "URI malformed"⟩, st, [])
    | some decodedId => getCoredumpInfo env st decodedId

/-- The extract_coredump tool case, part_007 lines 739-760. -/
def handleExtractCoredump (env : Env) (st : St) (args : ToolArgs) :
    Except McpError String × St × List ExtCmd :=
  let id := jsDisplay args.id
  let outputPath := jsDisplay args.outputPath
  if id = "" || outputPath = "" then
    (Except.error ⟨ErrorCode.invalidParams, "Coredump ID and output path are required"⟩,
     st, [])
  else
    match decodeURIComponentM id with
    | none => (Except.error ⟨ErrorCode.internalError, "URI malformed"⟩, st, [])
    | some decodedId => extractCoredump env st decodedId outputPath

/-- Reply shape of the get_stacktrace tool: its handler catches errors
of the try body and turns them into an is-error text reply instead of
rethrowing. -/
inductive StackReply where
  | okTrace (stk : StackTraceInfo)
  | failText (msg : String)
deriving DecidableEq

/-- The get_stacktrace tool case, part_007 lines 794-854: the emptiness
guard still throws, but every error raised inside the try body — the URI
decoding and the registry call — is converted to a failure text carrying
the message property of the caught error. -/
def handleGetStacktrace (env : Env) (st : St) (args : ToolArgs) :
    Except McpError StackReply × St × List ExtCmd :=
  let id := jsDisplay args.id
  if id = "" then
    (Except.error ⟨ErrorCode.invalidParams, "Coredump ID is required"⟩, st, [])
  else
    match decodeURIComponentM id with
    | none =>
      (Except.ok (StackReply.failText "Failed to get stack trace: URI malformed"), st, [])
    | some decodedId =>
      match getStackTrace env st decodedId with
      | (Except.error e, st', log) =>
        (Except.ok (StackReply.failText ("Failed to get stack trace: " ++ mcpMessage e)),
         st', log)
      | (Except.ok stk, st', log) => (Except.ok (StackReply.okTrace stk), st', log)

deriving instance DecidableEq for Except

/-- Boolean error test on an Except value. -/
def exceptErr : Except ε α → Bool
  | Except.error _ => true
  | Except.ok _ => false

/-- A member read on which toString would throw: absent or null. -/
def toStrFails : Option JValue → Bool
  | none => true
  | some JValue.null => true
  | _ => false

/-- An entry whose record conversion throws: its pid, uid or gid member
is absent or null. -/
def badEntry (e : JObj) : Bool :=
  toStrFails (objGet e "pid") || toStrFails (objGet e "uid") || toStrFails (objGet e "gid")

/-- Brace-freedom of a token: string tokens contain neither brace. -/
def braceFreeTok : Tok → Bool
  | Tok.str b => !(b.contains '{') && !(b.contains '}')
  | _ => true

/-- Brace-freedom of every string literal of a token list. -/
def strFree (ts : List Tok) : Bool :=
  ts.all braceFreeTok

/-- Environment in which the listing tool reports an empty array and
every other command succeeds with empty output. -/
def envListEmpty : Env :=
  { run := fun c =>
      match c with
      | ExtCmd.listJson => Except.ok "[]"
      | _ => Except.ok ""
    fmtTime := fun _ => "" }

/-- Environment in which the listing tool emits one structured entry
carrying only a corefile member, and every other command succeeds. -/
def envPresentOnly : Env :=
  { run := fun c =>
      match c with
      | ExtCmd.listJson => Except.ok "[\x7b\"corefile\": \"present\"\x7d]"
      | _ => Except.ok ""
    fmtTime := fun _ => "" }

/-- Environment in which the debugger invocation fails and every other
command (including the listing) succeeds. -/
def envGdbFails : Env :=
  { run := fun c =>
      match c with
      | ExtCmd.gdb _ _ _ => Except.error "gdb exited with code 1"
      | ExtCmd.listJson => Except.ok "[]"
      | _ => Except.ok ""
    fmtTime := fun _ => "" }

/-- Environment in which the delete command fails and every other
command succeeds. -/
def envDelFails : Env :=
  { run := fun c =>
      match c with
      | ExtCmd.del _ => Except.error "permission denied"
      | ExtCmd.listJson => Except.ok "[]"
      | _ => Except.ok ""
    fmtTime := fun _ => "" }

/-- A cached record of a dump that has not been extracted yet. -/
def dumpRecA : CoreDumpInfo :=
  { id := "id1", pid := some "2465", uid := some "1000", gid := some "100"
    signal := some "SIGABRT", timestamp := "Sat 2023-06-17 01:50:45 JST"
    cmdline := some "", exe := some "/usr/bin/cuteime", hostname := some ""
    coredump := none }

/-- A second cached record with a different id. -/
def dumpRecB : CoreDumpInfo :=
  { id := "id2", pid := some "9", uid := some "0", gid := some "0"
    signal := some "SIGSEGV", timestamp := "Sun 2023-06-18 02:00:00 JST"
    cmdline := some "", exe := some "/usr/bin/other", hostname := some ""
    coredump := none }

/-- Registry state caching exactly the first record, empty file system. -/
def stOne : St := { dumps := [("id1", dumpRecA)], fs := [] }

/-- Registry state caching both records, empty file system. -/
def stTwo : St := { dumps := [("id1", dumpRecA), ("id2", dumpRecB)], fs := [] }

/-- Empty registry state. -/
def stEmpty : St := { dumps := [], fs := [] }

/-- A correctly comma-separated array of two flat objects with benign
whitespace, inside the modelled fragment. -/
def validArrayText : String := "[ \x7b\"pid\": 1\x7d, \x7b\"pid\": 2\x7d ]"

/-- A correctly comma-separated array of one flat object whose string
value consists of a close brace followed by an open brace. -/
def braceValueText : String := "[\x7b\"a\":\"\x7d\x7b\"\x7d]"

/-- Adjacency constraint on token pairs: a brace-close is never followed
directly by a brace-open in any token list the array grammar accepts. -/
def okTok (a b : Tok) : Prop :=
  a ≠ Tok.rbrace ∨ b ≠ Tok.lbrace

/-- The example row with status missing instead of present. -/
def missingRow : String :=
  "Sat 2023-06-17 01:50:45 JST    2465 1000  100 SIGABRT missing  /usr/bin/cuteime 1.5M"

/-- Environment in which the listing tool emits text neither repair path
can decode. -/
def envNotJson : Env :=
  { run := fun c =>
      match c with
      | ExtCmd.listJson => Except.ok "not json at all"
      | _ => Except.ok ""
    fmtTime := fun _ => "" }

/-- C1: the size-dropping tabular parser turns the example row into
exactly one record with the stated seven fields: the trailing size token
is popped before the anchor search and never reaches the executable path. -/
theorem tabular_example_row_parses :
    listCoredumpsP6 exampleRow =
      [{ id := "Sat 2023-06-17 01:50:45 JST-2465"
         pid := some "2465", uid := some "1000", gid := some "100"
         signal := some "SIGABRT"
         timestamp := "Sat 2023-06-17 01:50:45 JST"
         cmdline := some "", exe := some "/usr/bin/cuteime", hostname := some ""
         coredump := none }] := by
  decide

/-- C5: the structured-mode signal translation maps each tabled fault
code to its symbolic name and every untabled integer code to SIG followed
by its decimal digits. -/
theorem signal_code_translation :
    jsSignalName (some (JValue.num 6)) = "SIGABRT" ∧
    jsSignalName (some (JValue.num 11)) = "SIGSEGV" ∧
    jsSignalName (some (JValue.num 4)) = "SIGILL" ∧
    jsSignalName (some (JValue.num 5)) = "SIGTRAP" ∧
    jsSignalName (some (JValue.num 8)) = "SIGFPE" ∧
    jsSignalName (some (JValue.num 9)) = "SIGKILL" ∧
    ∀ n : Int, n ≠ 4 → n ≠ 5 → n ≠ 6 → n ≠ 8 → n ≠ 9 → n ≠ 11 →
      jsSignalName (some (JValue.num n)) = "SIG" ++ intToStr n := by
  refine ⟨by decide, by decide, by decide, by decide, by decide, by decide, ?_⟩
  intro n h4 h5 h6 h8 h9 h11
  simp [jsSignalName, jsDisplay, h4, h5, h6, h8, h9, h11]

/-- Witness for the hypothesis-bearing part of the signal-translation
theorem: the untabled code 23 renders as SIG23. -/
theorem signal_code_translation_witness :
    jsSignalName (some (JValue.num 23)) = "SIG23" := by
  have h := signal_code_translation.2.2.2.2.2.2 23
    (by decide) (by decide) (by decide) (by decide) (by decide) (by decide)
  simpa using h

theorem msGet_cons (a : String) (v : CoreDumpInfo)
    (rest : List (String × CoreDumpInfo)) (k : String) :
    msGet ((a, v) :: rest) k = if a = k then some v else msGet rest k := by
  by_cases h : a = k <;> simp [msGet, List.find?_cons, h]

theorem msDelete_cons (a : String) (v : CoreDumpInfo)
    (rest : List (String × CoreDumpInfo)) (k : String) :
    msDelete ((a, v) :: rest) k =
      if a = k then msDelete rest k else (a, v) :: msDelete rest k := by
  by_cases h : a = k
  · simp [msDelete, List.filter, h]
  · have hb : (a != k) = true := by simpa [bne_iff_ne] using h
    simp [msDelete, List.filter, hb, h]

theorem msGet_msDelete_self (m : List (String × CoreDumpInfo)) (k : String) :
    msGet (msDelete m k) k = none := by
  induction m with
  | nil => rfl
  | cons p rest ih =>
    obtain ⟨a, v⟩ := p
    rw [msDelete_cons]
    by_cases h : a = k
    · simpa [h] using ih
    · rw [if_neg h, msGet_cons, if_neg h]
      exact ih

theorem msGet_msDelete_ne (m : List (String × CoreDumpInfo)) (k k' : String)
    (h : k' ≠ k) : msGet (msDelete m k) k' = msGet m k' := by
  induction m with
  | nil => rfl
  | cons p rest ih =>
    obtain ⟨a, v⟩ := p
    rw [msDelete_cons, msGet_cons]
    by_cases h1 : a = k
    · rw [if_pos h1, if_neg (fun hc => h (by rw [← hc, h1])), ih]
    · rw [if_neg h1, msGet_cons]
      by_cases h2 : a = k'
      · rw [if_pos h2, if_pos h2]
      · rw [if_neg h2, if_neg h2, ih]

/-- C10: with the record cached, removeCoredump is atomic on the map:
a successful delete command removes exactly the resolved id (every other
key reads unchanged) and returns true; a failing delete command leaves
the map untouched — the record stays cached — and throws InternalError.
In both cases the only spawned command is the delete itself. -/
theorem remove_coredump_atomic (env : Env) (st : St) (id : String) (cd : CoreDumpInfo)
    (h : msGet st.dumps id = some cd) :
    (∀ out : String, env.run (ExtCmd.del cd.pid) = Except.ok out →
      removeCoredump env st id =
        (Except.ok true, { st with dumps := msDelete st.dumps id }, [ExtCmd.del cd.pid]) ∧
      msGet (msDelete st.dumps id) id = none ∧
      ∀ k : String, k ≠ id → msGet (msDelete st.dumps id) k = msGet st.dumps k) ∧
    (∀ em : String, env.run (ExtCmd.del cd.pid) = Except.error em →
      removeCoredump env st id =
        (Except.error ⟨ErrorCode.internalError, "Failed to remove coredump: " ++ em⟩, st,
         [ExtCmd.del cd.pid]) ∧
      msGet st.dumps id = some cd) := by
  constructor
  · intro out hok
    refine ⟨?_, msGet_msDelete_self _ _, fun k hk => msGet_msDelete_ne _ _ _ hk⟩
    simp [removeCoredump, resolveDump, h, hok]
  · intro em herr
    refine ⟨?_, h⟩
    simp [removeCoredump, resolveDump, h, herr]

/-- Witness for the remove atomicity theorem at a concrete two-record
cache: the successful branch erases exactly id1, the failing branch
leaves the cache intact. -/
theorem remove_coredump_atomic_witness :
    removeCoredump envListEmpty stTwo "id1" =
      (Except.ok true, { stTwo with dumps := msDelete stTwo.dumps "id1" },
       [ExtCmd.del (some "2465")]) ∧
    msGet (msDelete stTwo.dumps "id1") "id1" = none ∧
    msGet (msDelete stTwo.dumps "id1") "id2" = msGet stTwo.dumps "id2" ∧
    removeCoredump envDelFails stTwo "id1" =
      (Except.error ⟨ErrorCode.internalError, "Failed to remove coredump: permission denied"⟩,
       stTwo, [ExtCmd.del (some "2465")]) := by
  have h1 := remove_coredump_atomic envListEmpty stTwo "id1" dumpRecA (by decide)
  have h2 := remove_coredump_atomic envDelFails stTwo "id1" dumpRecA (by decide)
  have ha := h1.1 "" (by decide)
  have hb := h2.2 "permission denied" (by decide)
  exact ⟨ha.1, ha.2.1, ha.2.2 "id2" (by decide), hb.1⟩

/-- C6 counterexample: an id absent even after the refresh fails with
the protocol InvalidParams code — the very code the handlers use for a
missing required argument — so the not-found failure does not carry a
dedicated not-found kind distinct from every other kind. -/
theorem miss_after_refresh_kind_counterexample :
    getCoredumpInfo envListEmpty stEmpty "x" =
      (Except.error ⟨ErrorCode.invalidParams, "Coredump with ID x not found"⟩,
       stEmpty, [ExtCmd.listJson]) ∧
    (handleGetCoredumpInfo envListEmpty stEmpty ⟨some (JValue.str ""), none⟩).1 =
      Except.error ⟨ErrorCode.invalidParams, "Coredump ID is required"⟩ := by
  decide

/-- C6 amended: for an id absent from the cache, each of the four
registry operations performs exactly one listing refresh and no other
external command, re-checks the map once, and — the id still absent —
fails with the InvalidParams protocol code carrying the not-found
message. -/
theorem miss_refreshes_once_then_fails (env : Env) (st : St) (id : String)
    (outPath : String) (ds : List CoreDumpInfo) (st2 : St)
    (h0 : msGet st.dumps id = none)
    (h1 : listCoredumps env false st = (Except.ok ds, st2, [ExtCmd.listJson]))
    (h2 : msGet st2.dumps id = none) :
    getCoredumpInfo env st id =
      (Except.error ⟨ErrorCode.invalidParams, "Coredump with ID " ++ id ++ " not found"⟩,
       st2, [ExtCmd.listJson]) ∧
    extractCoredump env st id outPath =
      (Except.error ⟨ErrorCode.invalidParams, "Coredump with ID " ++ id ++ " not found"⟩,
       st2, [ExtCmd.listJson]) ∧
    removeCoredump env st id =
      (Except.error ⟨ErrorCode.invalidParams, "Coredump with ID " ++ id ++ " not found"⟩,
       st2, [ExtCmd.listJson]) ∧
    getStackTrace env st id =
      (Except.error ⟨ErrorCode.invalidParams, "Coredump with ID " ++ id ++ " not found"⟩,
       st2, [ExtCmd.listJson]) := by
  have hres : resolveDump env st id =
      (Except.error ⟨ErrorCode.invalidParams, "Coredump with ID " ++ id ++ " not found"⟩,
       st2, [ExtCmd.listJson]) := by
    simp [resolveDump, h0, h1, h2]
  exact ⟨by simp [getCoredumpInfo, hres], by simp [extractCoredump, hres],
         by simp [removeCoredump, hres], by simp [getStackTrace, hres]⟩

/-- Witness for the refresh-once theorem at the empty cache and an
empty-listing environment. -/
theorem miss_refreshes_once_then_fails_witness :
    getCoredumpInfo envListEmpty stEmpty "x" =
      (Except.error ⟨ErrorCode.invalidParams, "Coredump with ID " ++ "x" ++ " not found"⟩,
       stEmpty, [ExtCmd.listJson]) ∧
    getStackTrace envListEmpty stEmpty "x" =
      (Except.error ⟨ErrorCode.invalidParams, "Coredump with ID " ++ "x" ++ " not found"⟩,
       stEmpty, [ExtCmd.listJson]) := by
  have h := miss_refreshes_once_then_fails envListEmpty stEmpty "x" "/out" [] stEmpty
    (by decide) (by decide) (by decide)
  exact ⟨h.1, h.2.2.2⟩

/-- C9: a tool call omitting the id argument is not rejected by the
required-argument guard: the undefined value coerces to the string
undefined, which passes the emptiness test, so the operation performs the
listing refresh (an external command) and fails with the not-found
message — and the get_stacktrace case does not even fail, returning an
is-error text reply. -/
theorem omitted_id_is_not_rejected :
    handleGetCoredumpInfo envListEmpty stEmpty ⟨none, none⟩ =
      (Except.error ⟨ErrorCode.invalidParams, "Coredump with ID undefined not found"⟩,
       stEmpty, [ExtCmd.listJson]) ∧
    handleExtractCoredump envListEmpty stEmpty ⟨none, none⟩ =
      (Except.error ⟨ErrorCode.invalidParams, "Coredump with ID undefined not found"⟩,
       stEmpty, [ExtCmd.listJson]) ∧
    handleGetStacktrace envListEmpty stEmpty ⟨none, none⟩ =
      (Except.ok (StackReply.failText
         "Failed to get stack trace: MCP error -32602: Coredump with ID undefined not found"),
       stEmpty, [ExtCmd.listJson]) := by
  decide

/-- C7: when the debugger invocation fails, the catch block removes only
the temporary extracted dump: the command-script file survives the
operation, while the success path removes both files. -/
theorem gdb_failure_keeps_command_script :
    (getStackTrace envGdbFails stOne "id1").1 =
      Except.error ⟨ErrorCode.internalError,
        "Failed to get stack trace: gdb exited with code 1"⟩ ∧
    (getStackTrace envGdbFails stOne "id1").2.1.fs = [gdbCommandFile] ∧
    (getStackTrace envGdbFails stOne "id1").2.2 =
      [ExtCmd.dump (some "2465") "/tmp/core-2465-temp.dump",
       ExtCmd.echoFile gdbCommandFile gdbCommandsText,
       ExtCmd.gdb (some "/usr/bin/cuteime") (some "/tmp/core-2465-temp.dump") gdbCommandFile,
       ExtCmd.rmf "/tmp/core-2465-temp.dump"] ∧
    (getStackTrace envListEmpty stOne "id1").2.1.fs = [] := by
  decide

/-- C8: the first stack-trace query for an unextracted dump deletes its
temporary extraction but records that deleted path on the cached record;
the second query for the same id therefore issues no extraction command
at all and hands the debugger the stale temporary path. -/
theorem second_stacktrace_skips_extraction :
    (getStackTrace envListEmpty stOne "id1").2.1.fs = [] ∧
    msGet (getStackTrace envListEmpty stOne "id1").2.1.dumps "id1" =
      some { dumpRecA with coredump := some "/tmp/core-2465-temp.dump" } ∧
    (getStackTrace envListEmpty
        ((getStackTrace envListEmpty stOne "id1").2.1) "id1").2.2 =
      [ExtCmd.echoFile gdbCommandFile gdbCommandsText,
       ExtCmd.gdb (some "/usr/bin/cuteime") (some "/tmp/core-2465-temp.dump") gdbCommandFile,
       ExtCmd.rmf gdbCommandFile] := by
  decide

theorem jsIndexOf_of_not_mem (l : List String) (x : String) (h : x ∉ l) :
    jsIndexOf l x = -1 := by
  induction l with
  | nil => rfl
  | cons a as ih =>
    simp only [List.mem_cons, not_or] at h
    have hne : ¬ a = x := fun hc => h.1 hc.symm
    simp [jsIndexOf, hne, ih h.2]

theorem jsIndexOf_nonneg (l : List String) (x : String) (h : jsIndexOf l x ≠ -1) :
    0 ≤ jsIndexOf l x := by
  induction l with
  | nil => exact absurd rfl h
  | cons a as ih =>
    by_cases hax : a = x
    · simp [jsIndexOf, hax]
    · by_cases hr : jsIndexOf as x = -1
      · exact absurd (by simp [jsIndexOf, hax, hr]) h
      · have hx := ih hr
        rw [show jsIndexOf (a :: as) x = jsIndexOf as x + 1 from by
          simp [jsIndexOf, hax, hr]]
        omega

theorem jsElem_jsIndexOf (l : List String) (x : String) (h : jsIndexOf l x ≠ -1) :
    jsElem l (jsIndexOf l x) = some x := by
  induction l with
  | nil => exact absurd rfl h
  | cons a as ih =>
    by_cases hax : a = x
    · simp [jsIndexOf, hax, jsElem]
    · by_cases hr : jsIndexOf as x = -1
      · exact absurd (by simp [jsIndexOf, hax, hr]) h
      · have hnn := jsIndexOf_nonneg as x hr
        have hih := ih hr
        have hstep : jsIndexOf (a :: as) x = jsIndexOf as x + 1 := by
          simp [jsIndexOf, hax, hr]
        rw [hstep]
        unfold jsElem at hih ⊢
        rw [if_neg (by omega)] at hih ⊢
        have ht : (jsIndexOf as x + 1).toNat = (jsIndexOf as x).toNat + 1 := by omega
        rw [ht, List.get?_cons_succ]
        exact hih

theorem exceptErr_jsToStr (v : Option JValue) :
    exceptErr (jsToStr v) = toStrFails v := by
  cases v with
  | none => rfl
  | some jv =>
    cases jv with
    | null => rfl
    | bool b => cases b <;> rfl
    | num n => rfl
    | str s => rfl

theorem convertEntry_err (fmtTime : Option JValue → String) (e : JObj) :
    exceptErr (convertEntry fmtTime e) = badEntry e := by
  cases hp : jsToStr (objGet e "pid") with
  | error m =>
    have hb : toStrFails (objGet e "pid") = true := by
      rw [← exceptErr_jsToStr, hp]; rfl
    simp [convertEntry, hp, badEntry, hb, exceptErr]
  | ok pid =>
    have hb : toStrFails (objGet e "pid") = false := by
      rw [← exceptErr_jsToStr, hp]; rfl
    cases hu : jsToStr (objGet e "uid") with
    | error m =>
      have hbu : toStrFails (objGet e "uid") = true := by
        rw [← exceptErr_jsToStr, hu]; rfl
      simp [convertEntry, hp, hu, badEntry, hb, hbu, exceptErr]
    | ok uid =>
      have hbu : toStrFails (objGet e "uid") = false := by
        rw [← exceptErr_jsToStr, hu]; rfl
      cases hg : jsToStr (objGet e "gid") with
      | error m =>
        have hbg : toStrFails (objGet e "gid") = true := by
          rw [← exceptErr_jsToStr, hg]; rfl
        simp [convertEntry, hp, hu, hg, badEntry, hb, hbu, hbg, exceptErr]
      | ok gid =>
        have hbg : toStrFails (objGet e "gid") = false := by
          rw [← exceptErr_jsToStr, hg]; rfl
        simp [convertEntry, hp, hu, hg, badEntry, hb, hbu, hbg, exceptErr]

theorem convertEntriesGo_err (fmtTime : Option JValue → String) (es : List JObj) :
    ∀ m acc, exceptErr (convertEntriesGo fmtTime es m acc).1 = es.any badEntry := by
  induction es with
  | nil => intro m acc; rfl
  | cons e rest ih =>
    intro m acc
    cases hc : convertEntry fmtTime e with
    | error msg =>
      have hbe : badEntry e = true := by
        rw [← convertEntry_err fmtTime e, hc]; rfl
      simp [convertEntriesGo, hc, List.any_cons, hbe, exceptErr]
    | ok d =>
      have hbe : badEntry e = false := by
        rw [← convertEntry_err fmtTime e, hc]; rfl
      simp [convertEntriesGo, hc, List.any_cons, hbe, ih]

theorem listCoredumps_err_iff (env : Env) (st : St) (onlyPresent : Bool)
    (stdout : String) (h : env.run ExtCmd.listJson = Except.ok stdout) :
    exceptErr (listCoredumps env onlyPresent st).1 =
      (structuredEntries stdout.data onlyPresent).any badEntry := by
  have hh := convertEntriesGo_err env.fmtTime (structuredEntries stdout.data onlyPresent) [] []
  rcases hc : convertEntriesGo env.fmtTime (structuredEntries stdout.data onlyPresent) [] []
    with ⟨r, m⟩
  rw [hc] at hh
  cases r with
  | ok ds =>
    simp only [listCoredumps, h, hc]
    simpa [exceptErr] using hh
  | error msg =>
    simp only [listCoredumps, h, hc]
    simpa [exceptErr] using hh

/-- C2 counterexample: an input that the bulk repair path decodes
perfectly well still makes the listing surface an error, because the
decoded entry lacks a pid and the record conversion throws; and an input
neither repair path can decode surfaces no error at all, yielding the
empty listing. -/
theorem conversion_error_despite_bulk_decode :
    jsonDecode (correctedJson "[\x7b\"corefile\": \"present\"\x7d]".data) =
      some [[("corefile", JValue.str "present")]] ∧
    (listCoredumps envPresentOnly false stEmpty).1 =
      Except.error ⟨ErrorCode.internalError,
        "Failed to list coredumps: Cannot read properties of undefined (reading 'toString')"⟩ ∧
    (listCoredumps envNotJson false stEmpty).1 = Except.ok [] := by
  decide

/-- C2 amended: a tabular row with fewer than seven tokens, or without a
recognizable status token, contributes zero records and cannot raise;
on the structured side the repair and decode stages never raise — the
listing surfaces an error exactly when some decoded, filter-surviving
entry has an absent-or-null pid, uid or gid member, so a totally
undecodable input yields an empty listing rather than an error. -/
theorem parser_error_policy_amended :
    (∀ line : List Char, (tokensOf line).length < 7 → parseListLineLegacy line = none) ∧
    (∀ line : List Char, "missing" ∉ tokensOf line → "present" ∉ tokensOf line →
      parseListLineLegacy line = none) ∧
    (∀ env : Env, ∀ st : St, ∀ onlyPresent : Bool, ∀ stdout : String,
      env.run ExtCmd.listJson = Except.ok stdout →
      exceptErr (listCoredumps env onlyPresent st).1 =
        (structuredEntries stdout.data onlyPresent).any badEntry) := by
  refine ⟨?_, ?_, ?_⟩
  · intro line h
    by_cases h1 : (jsTrim line).isEmpty
    · simp [parseListLineLegacy, h1]
    · simp [parseListLineLegacy, h1, h]
  · intro line hm hp
    by_cases h1 : (jsTrim line).isEmpty
    · simp [parseListLineLegacy, h1]
    · by_cases h2 : (tokensOf line).length < 7
      · simp [parseListLineLegacy, h1, h2]
      · have hm1 := jsIndexOf_of_not_mem _ _ hm
        have hp1 := jsIndexOf_of_not_mem _ _ hp
        simp [parseListLineLegacy, h1, h2, hm1, hp1]
  · intro env st onlyPresent stdout h
    exact listCoredumps_err_iff env st onlyPresent stdout h

/-- Witness for the error-policy theorem: a three-token row and an
eight-token row without a status token parse to nothing, and a concrete
run in which the lone decoded entry has no pid reports an error exactly
as the any-bad-entry test predicts. -/
theorem parser_error_policy_amended_witness :
    parseListLineLegacy "a b c".data = none ∧
    parseListLineLegacy "a b c d e f g h".data = none ∧
    exceptErr (listCoredumps envPresentOnly false stEmpty).1 =
      (structuredEntries "[\x7b\"corefile\": \"present\"\x7d]".data false).any badEntry := by
  refine ⟨?_, ?_, ?_⟩
  · exact parser_error_policy_amended.1 "a b c".data (by decide)
  · exact parser_error_policy_amended.2.1 "a b c d e f g h".data (by decide) (by decide)
  · exact parser_error_policy_amended.2.2 envPresentOnly stEmpty false
      "[\x7b\"corefile\": \"present\"\x7d]" (by decide)

/-- C3: the present-only modes exclude every other status.  A tabular
row whose popped token list has no present token contributes nothing; a
row that does parse is anchored on an actual present token; and every
structured entry surviving the present-only filter has its corefile
member equal to the literal present, in both decode paths. -/
theorem present_only_filter_excludes :
    (∀ line : List Char, "present" ∉ (tokensOf line).dropLast →
      parseListLineP6 line = none) ∧
    (∀ line : List Char, ∀ r : CoreDumpInfo, parseListLineP6 line = some r →
      jsElem ((tokensOf line).dropLast)
        (jsIndexOf ((tokensOf line).dropLast) "present") = some "present") ∧
    (∀ stdout : List Char, ∀ e ∈ structuredEntries stdout true,
      objGet e "corefile" = some (JValue.str "present")) := by
  refine ⟨?_, ?_, ?_⟩
  · intro line h
    by_cases h1 : (jsTrim line).isEmpty
    · simp [parseListLineP6, h1]
    · by_cases h2 : (tokensOf line).length < 7
      · simp [parseListLineP6, h1, h2]
      · have h3 := jsIndexOf_of_not_mem _ _ h
        simp [parseListLineP6, h1, h2, h3]
  · intro line r h
    by_cases h1 : (jsTrim line).isEmpty
    · simp [parseListLineP6, h1] at h
    · by_cases h2 : (tokensOf line).length < 7
      · simp [parseListLineP6, h1, h2] at h
      · by_cases h3 : jsIndexOf ((tokensOf line).dropLast) "present" = -1
        · simp [parseListLineP6, h1, h2, h3] at h
        · exact jsElem_jsIndexOf _ _ h3
  · intro stdout e h
    unfold structuredEntries at h
    rcases hd : jsonDecode (correctedJson stdout) with _ | arr
    · rw [hd] at h
      simp only [if_true, List.mem_filter] at h
      simpa [corefilePresent] using h.2
    · rw [hd] at h
      simp only [if_true, List.mem_filter] at h
      simpa [corefilePresent] using h.2

/-- Witness for the present-only theorem: the missing-status example row
parses to nothing, the present example row anchors on present, and the
lone surviving structured entry of a concrete listing has corefile
present. -/
theorem present_only_filter_excludes_witness :
    parseListLineP6 missingRow.data = none ∧
    jsElem ((tokensOf exampleRow.data).dropLast)
      (jsIndexOf ((tokensOf exampleRow.data).dropLast) "present") = some "present" ∧
    objGet [("corefile", JValue.str "present")] "corefile" =
      some (JValue.str "present") := by
  refine ⟨?_, ?_, ?_⟩
  · exact present_only_filter_excludes.1 missingRow.data (by decide)
  · exact present_only_filter_excludes.2.1 exampleRow.data
      { id := "Sat 2023-06-17 01:50:45 JST-2465"
        pid := some "2465", uid := some "1000", gid := some "100"
        signal := some "SIGABRT"
        timestamp := "Sat 2023-06-17 01:50:45 JST"
        cmdline := some "", exe := some "/usr/bin/cuteime", hostname := some ""
        coredump := none } (by decide)
  · exact present_only_filter_excludes.2.2
      "[\x7b\"corefile\": \"present\"\x7d]".data
      [("corefile", JValue.str "present")] (by decide)

theorem strBody_eq (cs b rest : List Char) (h : strBody cs = some (b, rest)) :
    cs = b ++ '"' :: rest ∧ ∀ c ∈ b, ¬ c = '"' ∧ ¬ c = '\\' := by
  unfold strBody at h
  split at h
  next b' rest' heq =>
    cases h
    rw [List.span_eq_take_drop] at heq
    have h1 := congrArg Prod.fst heq
    have h2 := congrArg Prod.snd heq
    simp only at h1 h2
    constructor
    · conv_lhs => rw [← List.takeWhile_append_dropWhile
        (p := fun c => c != '"' && c != '\\') (l := cs)]
      rw [h1, h2]
    · intro c hc
      have hm := List.mem_takeWhile_imp (h1 ▸ hc)
      simp only [Bool.and_eq_true, bne_iff_ne, ne_eq] at hm
      exact hm
  next heq => cases h

theorem strBody_length (cs b rest : List Char) (h : strBody cs = some (b, rest)) :
    rest.length < cs.length := by
  have := (strBody_eq cs b rest h).1
  rw [this]
  simp only [List.length_append, List.length_cons]
  omega

theorem span_snd_length (p : Char → Bool) (l : List Char) :
    (l.span p).2.length ≤ l.length := by
  rw [List.span_eq_take_drop]
  exact (List.dropWhile_sublist p).length_le

theorem lexWord_rest_length (c : Char) (cs : List Char) (t : Tok) (rest : List Char)
    (h : lexWord c cs = some (t, rest)) : rest.length ≤ cs.length := by
  simp only [lexWord] at h
  split_ifs at h
  · split at h
    next r => cases h; simp only [List.length_cons]; omega
    next => cases h
  · split at h
    next r => cases h; simp only [List.length_cons]; omega
    next => cases h
  · split at h
    next r => cases h; simp only [List.length_cons]; omega
    next => cases h

theorem lexNum_rest_length (c : Char) (cs : List Char) (t : Tok) (rest : List Char)
    (h : lexNum c cs = some (t, rest)) : rest.length ≤ cs.length := by
  simp only [lexNum] at h
  split_ifs at h
  · rcases cs with _ | ⟨d, cs2⟩
    · cases h
    · simp only at h
      split_ifs at h
      cases h
      have := span_snd_length Char.isDigit cs2
      simp only [List.length_cons]
      omega
  · cases h
    exact span_snd_length Char.isDigit cs
  · exact lexWord_rest_length c cs t rest h

theorem lexPunct_rest_length (c : Char) (cs : List Char) (t : Tok) (rest : List Char)
    (h : lexPunct c cs = some (t, rest)) : rest.length ≤ cs.length := by
  simp only [lexPunct] at h
  split_ifs at h
  · cases h; exact le_rfl
  · cases h; exact le_rfl
  · cases h; exact le_rfl
  · cases h; exact le_rfl
  · cases h; exact le_rfl
  · cases h; exact le_rfl
  · split at h
    next b rest' hsb =>
      cases h
      exact le_of_lt (strBody_length cs b _ hsb)
    next => cases h
  · exact lexNum_rest_length c cs t rest h

theorem lexOne_rest_length (c : Char) (cs : List Char) :
    ∀ rest, lexRest (lexOne c cs) = some rest → rest.length ≤ cs.length := by
  intro rest h
  simp only [lexOne] at h
  split_ifs at h
  · cases h; exact le_rfl
  · rcases hp : lexPunct c cs with _ | ⟨t, r⟩
    · rw [hp] at h; cases h
    · rw [hp] at h
      simp only [lexRest, Option.some.injEq] at h
      subst h
      exact lexPunct_rest_length c cs t _ hp

theorem head_dropWhile_not (p : Char → Bool) (l : List Char) :
    ∀ h0, (l.dropWhile p).head? = some h0 → p h0 = false := by
  induction l with
  | nil => intro h0 h; cases h
  | cons c t ih =>
    intro h0 h
    by_cases hc : p c
    · rw [List.dropWhile_cons_of_pos hc] at h
      exact ih h0 h
    · rw [List.dropWhile_cons_of_neg hc] at h
      cases h
      exact Bool.eq_false_iff.mpr hc

theorem span_append_exact (p : Char → Bool) (a y : List Char)
    (ha : ∀ x ∈ a, p x = true)
    (hy : ∀ h0, y.head? = some h0 → p h0 = false) :
    (a ++ y).span p = (a, y) := by
  rw [List.span_eq_take_drop]
  induction a with
  | nil =>
    simp only [List.nil_append]
    rcases y with _ | ⟨h0, t⟩
    · simp
    · have := hy h0 rfl
      rw [List.takeWhile_cons_of_neg (by simp [this]),
        List.dropWhile_cons_of_neg (by simp [this])]
  | cons c a' ih =>
    have hc := ha c (by simp)
    simp only [List.cons_append]
    rw [List.takeWhile_cons_of_pos hc, List.dropWhile_cons_of_pos hc]
    have := ih (fun x hx => ha x (by simp [hx]))
    rw [Prod.mk.injEq] at this
    simp [this.1, this.2]

theorem strBody_mk (b y : List Char) (hb : ∀ x ∈ b, ¬ x = '"' ∧ ¬ x = '\\') :
    strBody (b ++ '"' :: y) = some (b, y) := by
  unfold strBody
  rw [span_append_exact _ b ('"' :: y)
    (fun x hx => by simp [bne_iff_ne, (hb x hx).1, (hb x hx).2])
    (fun h0 hh => by cases hh; simp)]
  rfl

theorem digit_not_special (c : Char) (hc : c.isDigit = true) :
    jsonWs c = false ∧ ¬ c = '[' ∧ ¬ c = ']' ∧ ¬ c = '{' ∧ ¬ c = '}' ∧
      ¬ c = ',' ∧ ¬ c = ':' ∧ ¬ c = '"' ∧ ¬ c = '-' := by
  refine ⟨?_, ?_, ?_, ?_, ?_, ?_, ?_, ?_, ?_⟩
  · cases hws : jsonWs c with
    | false => rfl
    | true =>
      exfalso
      unfold jsonWs at hws
      simp only [Bool.or_eq_true, decide_eq_true_eq] at hws
      rcases hws with ((rfl | rfl) | rfl) | rfl <;> exact absurd hc (by decide)
  all_goals (intro h; subst h; exact absurd hc (by decide))

theorem lexOne_digit (c : Char) (hc : c.isDigit = true) (x : List Char) :
    lexOne c x =
      LexStep.emit (Tok.num (digitsToNat (c :: (x.span Char.isDigit).1)))
        (x.span Char.isDigit).2 := by
  obtain ⟨hws, h1, h2, h3, h4, h5, h6, h7, h8⟩ := digit_not_special c hc
  rcases hsp : x.span Char.isDigit with ⟨ds, r⟩
  simp only [lexOne, lexPunct, lexNum, hws, h1, h2, h3, h4, h5, h6, h7, h8, hc, hsp,
    Bool.false_eq_true, if_false, if_true, ite_false, ite_true, if_neg, not_false_eq_true]

theorem lexOne_minus (d : Char) (hd : d.isDigit = true) (x : List Char) :
    lexOne '-' (d :: x) =
      LexStep.emit (Tok.num (-(digitsToNat (d :: (x.span Char.isDigit).1) : Int)))
        (x.span Char.isDigit).2 := by
  rcases hsp : x.span Char.isDigit with ⟨ds, r⟩
  simp only [lexOne, lexPunct, lexNum, jsonWs, hd, hsp,
    Bool.false_eq_true, if_false, if_true, ite_false, ite_true, not_false_eq_true]
  rw [List.span_eq_take_drop] at hsp
  injection hsp with ha hb2
  subst ha
  subst hb2
  simp

theorem lexOne_skip_inv (c : Char) (cs rest : List Char)
    (h : lexOne c cs = LexStep.skip rest) : jsonWs c = true ∧ rest = cs := by
  simp only [lexOne] at h
  split_ifs at h with hws
  · cases h; exact ⟨hws, rfl⟩
  · rcases hp : lexPunct c cs with _ | ⟨t, r⟩ <;> rw [hp] at h <;> cases h

theorem lexOne_emit_inv (c : Char) (cs : List Char) (t : Tok) (rest : List Char)
    (h : lexOne c cs = LexStep.emit t rest) :
    (c = '[' ∧ t = Tok.lbrack ∧ rest = cs) ∨
    (c = ']' ∧ t = Tok.rbrack ∧ rest = cs) ∨
    (c = '{' ∧ t = Tok.lbrace ∧ rest = cs) ∨
    (c = '}' ∧ t = Tok.rbrace ∧ rest = cs) ∨
    (c = ',' ∧ t = Tok.comma ∧ rest = cs) ∨
    (c = ':' ∧ t = Tok.colon ∧ rest = cs) ∨
    (∃ b, c = '"' ∧ t = Tok.str b ∧ cs = b ++ '"' :: rest ∧
      ∀ x ∈ b, ¬ x = '"' ∧ ¬ x = '\\') ∨
    (∃ mid, (c.isDigit ∨ c = '-') ∧ cs = mid ++ rest ∧ (∀ x ∈ mid, x.isDigit) ∧
      (∀ h0, rest.head? = some h0 → h0.isDigit = false) ∧
      ∀ y, (∀ h0, y.head? = some h0 → h0.isDigit = false) →
        lexOne c (mid ++ y) = LexStep.emit t y) ∨
    ((c = 't' ∧ t = Tok.tru ∧ cs = 'r' :: 'u' :: 'e' :: rest) ∨
     (c = 'f' ∧ t = Tok.fls ∧ cs = 'a' :: 'l' :: 's' :: 'e' :: rest) ∨
     (c = 'n' ∧ t = Tok.nul ∧ cs = 'u' :: 'l' :: 'l' :: rest)) := by
  simp only [lexOne] at h
  split_ifs at h
  rcases hp : lexPunct c cs with _ | ⟨t', r'⟩ <;> rw [hp] at h <;> cases h
  · simp only [lexPunct] at hp
    split_ifs at hp with h1 h2 h3 h4 h5 h6 h7
    · cases hp; exact Or.inl ⟨h1, rfl, rfl⟩
    · cases hp; exact Or.inr (Or.inl ⟨h2, rfl, rfl⟩)
    · cases hp; exact Or.inr (Or.inr (Or.inl ⟨h3, rfl, rfl⟩))
    · cases hp; exact Or.inr (Or.inr (Or.inr (Or.inl ⟨h4, rfl, rfl⟩)))
    · cases hp; exact Or.inr (Or.inr (Or.inr (Or.inr (Or.inl ⟨h5, rfl, rfl⟩))))
    · cases hp
      exact Or.inr (Or.inr (Or.inr (Or.inr (Or.inr (Or.inl ⟨h6, rfl, rfl⟩)))))
    · split at hp
      next b rest' hsb =>
        cases hp
        have hd := strBody_eq cs b _ hsb
        exact Or.inr (Or.inr (Or.inr (Or.inr (Or.inr (Or.inr (Or.inl
          ⟨b, h7, rfl, hd.1, hd.2⟩))))))
      next => cases hp
    · simp only [lexNum] at hp
      split_ifs at hp with hm hd
      · rcases cs with _ | ⟨d, cs2⟩
        · cases hp
        · simp only at hp
          split_ifs at hp with hdig
          · cases hp
            refine Or.inr (Or.inr (Or.inr (Or.inr (Or.inr (Or.inr (Or.inr (Or.inl
              ⟨d :: (cs2.span Char.isDigit).1, Or.inr hm, ?_, ?_, ?_, ?_⟩)))))))
            · rw [List.span_eq_take_drop]
              simp only [List.cons_append, List.cons.injEq, true_and]
              conv_lhs => rw [← List.takeWhile_append_dropWhile
                (p := Char.isDigit) (l := cs2)]
            · intro x hx
              rcases List.mem_cons.mp hx with hx | hx
              · exact hx ▸ hdig
              · rw [List.span_eq_take_drop] at hx
                exact List.mem_takeWhile_imp hx
            · intro h0 hh
              rw [List.span_eq_take_drop] at hh
              exact head_dropWhile_not _ _ h0 hh
            · intro y hy
              subst hm
              rw [List.cons_append, lexOne_minus d hdig]
              have hspy := span_append_exact Char.isDigit
                (cs2.span Char.isDigit).1 y
                (fun x hx => by
                  rw [List.span_eq_take_drop] at hx
                  exact List.mem_takeWhile_imp hx) hy
              rw [hspy]
      · cases hp
        refine Or.inr (Or.inr (Or.inr (Or.inr (Or.inr (Or.inr (Or.inr (Or.inl
          ⟨(cs.span Char.isDigit).1, Or.inl hd, ?_, ?_, ?_, ?_⟩)))))))
        · conv_lhs => rw [← List.takeWhile_append_dropWhile
            (p := Char.isDigit) (l := cs)]
          rw [List.span_eq_take_drop]
        · intro x hx
          rw [List.span_eq_take_drop] at hx
          exact List.mem_takeWhile_imp hx
        · intro h0 hh
          rw [List.span_eq_take_drop] at hh
          exact head_dropWhile_not _ _ h0 hh
        · intro y hy
          rw [lexOne_digit c hd]
          have hspy := span_append_exact Char.isDigit
            (cs.span Char.isDigit).1 y
            (fun x hx => by
              rw [List.span_eq_take_drop] at hx
              exact List.mem_takeWhile_imp hx) hy
          rw [hspy]
      · simp only [lexWord] at hp
        split_ifs at hp with ht hf hn
        · split at hp
          next r => cases hp; exact Or.inr (Or.inr (Or.inr (Or.inr (Or.inr (Or.inr
            (Or.inr (Or.inr (Or.inl ⟨ht, rfl, rfl⟩))))))))
          next => cases hp
        · split at hp
          next r => cases hp; exact Or.inr (Or.inr (Or.inr (Or.inr (Or.inr (Or.inr
            (Or.inr (Or.inr (Or.inr (Or.inl ⟨hf, rfl, rfl⟩)))))))))
          next => cases hp
        · split at hp
          next r => cases hp; exact Or.inr (Or.inr (Or.inr (Or.inr (Or.inr (Or.inr
            (Or.inr (Or.inr (Or.inr (Or.inr ⟨hn, rfl, rfl⟩)))))))))
          next => cases hp

theorem chain'_of_tail_no_lb (l : List Tok) (h : ∀ t ∈ l.tail, t ≠ Tok.lbrace) :
    List.Chain' okTok l := by
  induction l with
  | nil => exact List.chain'_nil
  | cons a l ih =>
    rw [List.chain'_cons']
    refine ⟨fun y hy => Or.inr (h y (List.mem_of_mem_head? hy)), ?_⟩
    exact ih fun t ht => h t (List.mem_of_mem_tail ht)

theorem valOfTok_ne_lbrace (tv : Tok) (v : JValue) (h : valOfTok tv = some v) :
    tv ≠ Tok.lbrace := by
  intro hc
  subst hc
  cases h

theorem parseMembersGo_decomp :
    ∀ f ts o rest, parseMembersGo f ts = some (o, rest) →
      ∃ pre, ts = pre ++ Tok.rbrace :: rest ∧ ∀ x ∈ pre, x ≠ Tok.lbrace := by
  intro f
  induction f with
  | zero =>
    intro ts o rest h
    rcases ts with _ | ⟨t0, ts'⟩
    · cases h
    · cases t0 <;> simp only [parseMembersGo] at h <;> try cases h
      exact ⟨[], rfl, by simp⟩
  | succ f ih =>
    intro ts o rest h
    rcases ts with _ | ⟨t0, ts'⟩
    · cases h
    · cases t0
      case rbrace =>
        simp only [parseMembersGo] at h
        cases h
        exact ⟨[], rfl, by simp⟩
      case str k =>
        rcases ts' with _ | ⟨t1, ts''⟩
        · simp only [parseMembersGo] at h; cases h
        · cases t1 <;> try (simp only [parseMembersGo] at h; cases h)
          case colon =>
            rcases ts'' with _ | ⟨tv, rest0⟩
            · simp only [parseMembersGo] at h; cases h
            · simp only [parseMembersGo] at h
              rcases hv : valOfTok tv with _ | v <;> rw [hv] at h
              · cases h
              · dsimp only at h
                rcases rest0 with _ | ⟨t3, rest1⟩
                · cases h
                · cases t3
                  case comma =>
                    dsimp only at h
                    rcases rest1 with _ | ⟨t4, rest2⟩
                    · cases h
                    · cases t4
                      case str k2 =>
                        dsimp only at h
                        rcases hm : parseMembersGo f (Tok.str k2 :: rest2)
                          with _ | ⟨o', rest'⟩ <;> rw [hm] at h
                        · cases h
                        · cases h
                          obtain ⟨pre', hp1, hp2⟩ :=
                            ih (Tok.str k2 :: rest2) o' rest' hm
                          refine ⟨Tok.str k :: Tok.colon :: tv :: Tok.comma :: pre',
                            ?_, ?_⟩
                          · simp [hp1]
                          · intro x hx
                            simp only [List.mem_cons] at hx
                            rcases hx with rfl | rfl | rfl | rfl | hx
                            · simp
                            · simp
                            · exact valOfTok_ne_lbrace _ v hv
                            · simp
                            · exact hp2 x hx
                      all_goals (dsimp only at h; cases h)
                  case rbrace =>
                    dsimp only at h
                    cases h
                    exact ⟨[Tok.str k, Tok.colon, tv], rfl, by
                      intro x hx
                      simp only [List.mem_cons] at hx
                      rcases hx with rfl | rfl | rfl | hx
                      · simp
                      · simp
                      · exact valOfTok_ne_lbrace _ v hv
                      · simp at hx⟩
                  all_goals (dsimp only at h; cases h)
      all_goals simp only [parseMembersGo] at h
      all_goals cases h

theorem parseObjsGo_chain :
    ∀ f ts l, parseObjsGo f ts = some l → List.Chain' okTok ts := by
  intro f
  induction f with
  | zero =>
    intro ts l h
    simp only [parseObjsGo] at h
    cases h
  | succ f ih =>
    intro ts l h
    rcases ts with _ | ⟨t0, ts1⟩
    · simp only [parseObjsGo] at h; cases h
    · cases t0
      case lbrace =>
        simp only [parseObjsGo] at h
        rcases hm : parseMembersGo ts1.length ts1 with _ | ⟨o, rest⟩ <;> rw [hm] at h
        · cases h
        · dsimp only at h
          obtain ⟨pre, hp1, hp2⟩ := parseMembersGo_decomp ts1.length ts1 o rest hm
          rcases rest with _ | ⟨t3, rest2⟩
          · cases h
          · cases t3
            case comma =>
              dsimp only at h
              rcases ho : parseObjsGo f rest2 with _ | l' <;> rw [ho] at h
              · cases h
              · have hc2 := ih rest2 l' ho
                subst hp1
                have hshape : Tok.lbrace :: (pre ++ Tok.rbrace :: Tok.comma :: rest2) =
                    ((Tok.lbrace :: pre) ++ [Tok.rbrace, Tok.comma]) ++ rest2 := by
                  simp
                rw [hshape, List.chain'_append]
                refine ⟨?_, hc2, ?_⟩
                · apply chain'_of_tail_no_lb
                  intro t ht
                  simp only [List.cons_append, List.tail_cons, List.mem_append,
                    List.mem_cons, List.not_mem_nil, or_false] at ht
                  rcases ht with ht | rfl | rfl
                  · exact hp2 t ht
                  · simp
                  · simp
                · intro x hx y hy
                  rw [List.getLast?_append_of_ne_nil _ (by simp)] at hx
                  simp only [List.getLast?, Option.mem_def, Option.some.injEq] at hx
                  subst hx
                  exact Or.inl (by simp)
            case rbrack =>
              rcases rest2 with _ | ⟨t5, rest3⟩
              · dsimp only at h
                subst hp1
                apply chain'_of_tail_no_lb
                intro t ht
                simp only [List.tail_cons, List.mem_append, List.mem_cons,
                  List.not_mem_nil, or_false] at ht
                rcases ht with ht | rfl | rfl
                · exact hp2 t ht
                · simp
                · simp
              · dsimp only at h; cases h
            all_goals (dsimp only at h; cases h)
      all_goals (simp only [parseObjsGo] at h; cases h)

theorem parseToks_chain (ts : List Tok) (l : List JObj) (h : parseToks ts = some l) :
    List.Chain' okTok ts := by
  unfold parseToks at h
  split at h
  next =>
    apply chain'_of_tail_no_lb
    intro t ht
    simp only [List.tail_cons, List.mem_cons, List.not_mem_nil, or_false] at ht
    subst ht
    simp
  next rest hne =>
    rw [List.chain'_cons']
    exact ⟨fun y _ => Or.inl (by simp), parseObjsGo_chain rest.length rest l h⟩
  next => cases h

theorem span_snd_len_lt (p : Char → Bool) (cs : List Char) (z0 : Char)
    (z1 : List Char) (h : (cs.span p).2 = z0 :: z1) : z1.length < cs.length := by
  have := span_snd_length p cs
  rw [h] at this
  simp only [List.length_cons] at this
  omega

theorem repair1Go_congr :
    ∀ n f g l, l.length ≤ n → l.length ≤ f → l.length ≤ g →
      repair1Go f l = repair1Go g l := by
  intro n
  induction n with
  | zero =>
    intro f g l hn _ _
    have hl : l = [] := List.length_eq_zero.mp (Nat.le_zero.mp hn)
    subst hl
    cases f <;> cases g <;> rfl
  | succ n ih =>
    intro f g l hn hf hg
    rcases l with _ | ⟨c, cs⟩
    · cases f <;> cases g <;> rfl
    · simp only [List.length_cons] at hn hf hg
      cases f with
      | zero => omega
      | succ f' =>
        cases g with
        | zero => omega
        | succ g' =>
          simp only [repair1Go]
          by_cases hc : c = '}'
          · simp only [if_pos hc]
            rcases hz : (cs.span regexWs).2 with _ | ⟨z0, z1⟩ <;> simp only [hz]
            · rw [ih f' g' cs (by omega) (by omega) (by omega)]
            · have hlt := span_snd_len_lt regexWs cs z0 z1 hz
              by_cases hz0 : z0 = '{'
              · simp only [if_pos hz0]
                rw [ih f' g' z1 (by omega) (by omega) (by omega)]
              · simp only [if_neg hz0]
                rw [ih f' g' cs (by omega) (by omega) (by omega)]
          · simp only [if_neg hc]
            rw [ih f' g' cs (by omega) (by omega) (by omega)]

theorem repair2Go_congr :
    ∀ n f g l, l.length ≤ n → l.length ≤ f → l.length ≤ g →
      repair2Go f l = repair2Go g l := by
  intro n
  induction n with
  | zero =>
    intro f g l hn _ _
    have hl : l = [] := List.length_eq_zero.mp (Nat.le_zero.mp hn)
    subst hl
    cases f <;> cases g <;> rfl
  | succ n ih =>
    intro f g l hn hf hg
    rcases l with _ | ⟨c, cs⟩
    · cases f <;> cases g <;> rfl
    · simp only [List.length_cons] at hn hf hg
      cases f with
      | zero => omega
      | succ f' =>
        cases g with
        | zero => omega
        | succ g' =>
          simp only [repair2Go]
          by_cases hc : c = '}'
          · simp only [if_pos hc]
            rcases hz : (cs.span regexWs).2 with _ | ⟨z0, z1⟩ <;> simp only [hz]
            · rw [ih f' g' cs (by omega) (by omega) (by omega)]
            · have hlt := span_snd_len_lt regexWs cs z0 z1 hz
              by_cases hz0 : z0 = ']'
              · simp only [if_pos hz0]
                rw [ih f' g' z1 (by omega) (by omega) (by omega)]
              · simp only [if_neg hz0]
                rw [ih f' g' cs (by omega) (by omega) (by omega)]
          · simp only [if_neg hc]
            rw [ih f' g' cs (by omega) (by omega) (by omega)]

theorem repair3Go_congr :
    ∀ n f g l, l.length ≤ n → l.length ≤ f → l.length ≤ g →
      repair3Go f l = repair3Go g l := by
  intro n
  induction n with
  | zero =>
    intro f g l hn _ _
    have hl : l = [] := List.length_eq_zero.mp (Nat.le_zero.mp hn)
    subst hl
    cases f <;> cases g <;> rfl
  | succ n ih =>
    intro f g l hn hf hg
    rcases l with _ | ⟨c, cs⟩
    · cases f <;> cases g <;> rfl
    · simp only [List.length_cons] at hn hf hg
      cases f with
      | zero => omega
      | succ f' =>
        cases g with
        | zero => omega
        | succ g' =>
          simp only [repair3Go]
          by_cases hc : c = '['
          · simp only [if_pos hc]
            rcases hz : (cs.span regexWs).2 with _ | ⟨z0, z1⟩ <;> simp only [hz]
            · rw [ih f' g' cs (by omega) (by omega) (by omega)]
            · by_cases hz0 : z0 = '{'
              · simp only [if_pos hz0]
              · simp only [if_neg hz0]
                rw [ih f' g' cs (by omega) (by omega) (by omega)]
          · simp only [if_neg hc]
            rw [ih f' g' cs (by omega) (by omega) (by omega)]

theorem repair1_cons_ne (c : Char) (cs : List Char) (h : ¬ c = '}') :
    repair1 (c :: cs) = c :: repair1 cs := by
  unfold repair1
  simp only [List.length_cons, repair1Go, if_neg h]

theorem repair2_cons_ne (c : Char) (cs : List Char) (h : ¬ c = '}') :
    repair2 (c :: cs) = c :: repair2 cs := by
  unfold repair2
  simp only [List.length_cons, repair2Go, if_neg h]

theorem repair3_cons_ne (c : Char) (cs : List Char) (h : ¬ c = '[') :
    repair3 (c :: cs) = c :: repair3 cs := by
  unfold repair3
  simp only [List.length_cons, repair3Go, if_neg h]

theorem repair1_rb (cs : List Char) :
    repair1 ('}' :: cs) =
      match (cs.span regexWs).2 with
      | z0 :: z1 =>
        if z0 = '{' then '}' :: ',' :: '{' :: repair1 z1
        else '}' :: repair1 cs
      | [] => '}' :: repair1 cs := by
  unfold repair1
  simp only [List.length_cons, repair1Go, if_true, eq_self_iff_true]
  rcases hz : (cs.span regexWs).2 with _ | ⟨z0, z1⟩
  · simp only [hz]
  · simp only [hz]
    by_cases hz0 : z0 = '{'
    · have hlt := span_snd_len_lt regexWs cs z0 z1 hz
      simp only [if_pos hz0]
      rw [repair1Go_congr cs.length cs.length z1.length z1 (by omega) (by omega) le_rfl]
    · simp only [if_neg hz0]

theorem repair2_rb (cs : List Char) :
    repair2 ('}' :: cs) =
      match (cs.span regexWs).2 with
      | z0 :: z1 =>
        if z0 = ']' then '}' :: ']' :: repair2 z1
        else '}' :: repair2 cs
      | [] => '}' :: repair2 cs := by
  unfold repair2
  simp only [List.length_cons, repair2Go, if_true, eq_self_iff_true]
  rcases hz : (cs.span regexWs).2 with _ | ⟨z0, z1⟩
  · simp only [hz]
  · simp only [hz]
    by_cases hz0 : z0 = ']'
    · have hlt := span_snd_len_lt regexWs cs z0 z1 hz
      simp only [if_pos hz0]
      rw [repair2Go_congr cs.length cs.length z1.length z1 (by omega) (by omega) le_rfl]
    · simp only [if_neg hz0]

theorem repair3_lb (cs : List Char) :
    repair3 ('[' :: cs) =
      match (cs.span regexWs).2 with
      | z0 :: z1 =>
        if z0 = '{' then '[' :: '{' :: z1
        else '[' :: repair3 cs
      | [] => '[' :: repair3 cs := by
  unfold repair3
  simp only [List.length_cons, repair3Go, if_true, eq_self_iff_true]

theorem repair1_append_no_rb (xs r : List Char) (h : ∀ x ∈ xs, ¬ x = '}') :
    repair1 (xs ++ r) = xs ++ repair1 r := by
  induction xs with
  | nil => simp
  | cons c xs' ih =>
    rw [List.cons_append, repair1_cons_ne c _ (h c (by simp)),
      ih (fun x hx => h x (by simp [hx])), List.cons_append]

theorem repair2_append_no_rb (xs r : List Char) (h : ∀ x ∈ xs, ¬ x = '}') :
    repair2 (xs ++ r) = xs ++ repair2 r := by
  induction xs with
  | nil => simp
  | cons c xs' ih =>
    rw [List.cons_append, repair2_cons_ne c _ (h c (by simp)),
      ih (fun x hx => h x (by simp [hx])), List.cons_append]

/-- Tokenizing the empty input succeeds with no tokens at any fuel. -/
theorem tokenizeGo_nil (f : Nat) : tokenizeGo f [] = some [] := by
  cases f <;> rfl

/-- Fuel congruence of the tokenizer: any two sufficient fuels agree. -/
theorem tokenizeGo_fuel (n : Nat) :
    ∀ f1 f2 l, l.length ≤ n → l.length ≤ f1 → l.length ≤ f2 →
      tokenizeGo f1 l = tokenizeGo f2 l := by
  induction n with
  | zero =>
    intro f1 f2 l hn _ _
    rcases l with _ | ⟨c, cs⟩
    · rw [tokenizeGo_nil, tokenizeGo_nil]
    · simp only [List.length_cons] at hn
      omega
  | succ n ih =>
    intro f1 f2 l hn h1 h2
    rcases l with _ | ⟨c, cs⟩
    · rw [tokenizeGo_nil, tokenizeGo_nil]
    · simp only [List.length_cons] at hn h1 h2
      rcases f1 with _ | f1'
      · omega
      rcases f2 with _ | f2'
      · omega
      simp only [tokenizeGo]
      cases hl : lexOne c cs with
      | emit t rest =>
        dsimp only
        have hr := lexOne_rest_length c cs rest (by rw [hl]; rfl)
        rw [ih f1' f2' rest (by omega) (by omega) (by omega)]
      | skip rest =>
        dsimp only
        have hr := lexOne_rest_length c cs rest (by rw [hl]; rfl)
        exact ih f1' f2' rest (by omega) (by omega) (by omega)
      | fail => rfl

/-- One-step unfolding of the tokenizer at full fuel. -/
theorem tokenize_cons (c : Char) (cs : List Char) :
    tokenize (c :: cs) =
      match lexOne c cs with
      | LexStep.emit t rest => (tokenize rest).map (t :: ·)
      | LexStep.skip rest => tokenize rest
      | LexStep.fail => none := by
  unfold tokenize
  simp only [List.length_cons, tokenizeGo]
  cases hl : lexOne c cs with
  | emit t rest =>
    dsimp only
    have hr := lexOne_rest_length c cs rest (by rw [hl]; rfl)
    rw [tokenizeGo_fuel cs.length cs.length rest.length rest hr hr le_rfl]
  | skip rest =>
    dsimp only
    have hr := lexOne_rest_length c cs rest (by rw [hl]; rfl)
    rw [tokenizeGo_fuel cs.length cs.length rest.length rest hr hr le_rfl]
  | fail => rfl

/-- A JSON whitespace character is skipped by the lexer. -/
theorem lexOne_ws (c : Char) (cs : List Char) (h : jsonWs c = true) :
    lexOne c cs = LexStep.skip cs := by
  simp [lexOne, h]

/-- Vertical tab matches no lexer rule. -/
theorem lexOne_vtab (cs : List Char) : lexOne '\x0b' cs = LexStep.fail := rfl

/-- Form feed matches no lexer rule. -/
theorem lexOne_ff (cs : List Char) : lexOne '\x0c' cs = LexStep.fail := rfl

/-- A prefix of regex whitespace can be dropped from any successfully
tokenized input: the characters the regex class adds over JSON.parse
whitespace make tokenization fail, so on success the prefix is JSON
whitespace. -/
theorem tokenize_ws_prefix (w : List Char) :
    ∀ x ts, (∀ c ∈ w, regexWs c = true) → tokenize (w ++ x) = some ts →
      tokenize x = some ts := by
  induction w with
  | nil => intro x ts _ h; exact h
  | cons c w' ih =>
    intro x ts hw h
    rw [List.cons_append, tokenize_cons] at h
    by_cases hj : jsonWs c
    · rw [lexOne_ws c _ hj] at h
      exact ih x ts (fun d hd => hw d (by simp [hd])) h
    · exfalso
      have hc : c = '\x0b' ∨ c = '\x0c' := by
        have h1 := hw c (by simp)
        unfold regexWs at h1
        unfold jsonWs at hj
        simp only [Bool.or_eq_true, decide_eq_true_eq] at h1 hj
        tauto
      rcases hc with rfl | rfl
      · rw [lexOne_vtab] at h; cases h
      · rw [lexOne_ff] at h; cases h

/-- The lexer emits a bracket-open token regardless of the remainder. -/
theorem lexOne_lbrack_eq (y : List Char) :
    lexOne '[' y = LexStep.emit Tok.lbrack y := rfl

/-- The lexer emits a bracket-close token regardless of the remainder. -/
theorem lexOne_rbrack_eq (y : List Char) :
    lexOne ']' y = LexStep.emit Tok.rbrack y := rfl

/-- The lexer emits a brace-open token regardless of the remainder. -/
theorem lexOne_lbrace_eq (y : List Char) :
    lexOne '{' y = LexStep.emit Tok.lbrace y := rfl

/-- The lexer emits a brace-close token regardless of the remainder. -/
theorem lexOne_rbrace_eq (y : List Char) :
    lexOne '}' y = LexStep.emit Tok.rbrace y := rfl

/-- The lexer emits a comma token regardless of the remainder. -/
theorem lexOne_comma_eq (y : List Char) :
    lexOne ',' y = LexStep.emit Tok.comma y := rfl

/-- The lexer emits a colon token regardless of the remainder. -/
theorem lexOne_colon_eq (y : List Char) :
    lexOne ':' y = LexStep.emit Tok.colon y := rfl

/-- The lexer emits a true token on the spelled-out keyword. -/
theorem lexOne_true_eq (y : List Char) :
    lexOne 't' ('r' :: 'u' :: 'e' :: y) = LexStep.emit Tok.tru y := rfl

/-- The lexer emits a false token on the spelled-out keyword. -/
theorem lexOne_false_eq (y : List Char) :
    lexOne 'f' ('a' :: 'l' :: 's' :: 'e' :: y) = LexStep.emit Tok.fls y := rfl

/-- The lexer emits a null token on the spelled-out keyword. -/
theorem lexOne_null_eq (y : List Char) :
    lexOne 'n' ('u' :: 'l' :: 'l' :: y) = LexStep.emit Tok.nul y := rfl

/-- A quote followed by a clean string body and a closing quote lexes to
that string token, whatever follows the closing quote. -/
theorem lexOne_quote (b y : List Char) (hb : ∀ x ∈ b, ¬ x = '"' ∧ ¬ x = '\\') :
    lexOne '"' (b ++ '"' :: y) = LexStep.emit (Tok.str b) y := by
  have hs := strBody_mk b y hb
  simp [lexOne, lexPunct, hs, jsonWs]

/-- Brace-freedom of a token list splits over cons. -/
theorem strFree_cons (t : Tok) (ts : List Tok) (h : strFree (t :: ts) = true) :
    braceFreeTok t = true ∧ strFree ts = true := by
  simp only [strFree, List.all_cons, Bool.and_eq_true] at h
  exact ⟨h.1, h.2⟩

/-- The body of a brace-free string token contains neither brace. -/
theorem braceFree_str (b : List Char) (h : braceFreeTok (Tok.str b) = true) :
    ∀ x ∈ b, ¬ x = '{' ∧ ¬ x = '}' := by
  simp only [braceFreeTok, Bool.and_eq_true, Bool.not_eq_true'] at h
  intro x hx
  have h1 : ¬ '{' ∈ b := by simpa using h.1
  have h2 : ¬ '}' ∈ b := by simpa using h.2
  exact ⟨fun he => h1 (he ▸ hx), fun he => h2 (he ▸ hx)⟩

/-- The first repair preserves the head character. -/
theorem repair1_head (l : List Char) : (repair1 l).head? = l.head? := by
  rcases l with _ | ⟨c, cs⟩
  · rfl
  · by_cases hc : c = '}'
    · subst hc
      rw [repair1_rb]
      rcases hz : (cs.span regexWs).2 with _ | ⟨z0, z1⟩ <;> simp only [hz]
      · rfl
      · by_cases hz0 : z0 = '{'
        · simp only [if_pos hz0]; rfl
        · simp only [if_neg hz0]; rfl
    · rw [repair1_cons_ne c cs hc]; rfl

/-- The second repair preserves the head character. -/
theorem repair2_head (l : List Char) : (repair2 l).head? = l.head? := by
  rcases l with _ | ⟨c, cs⟩
  · rfl
  · by_cases hc : c = '}'
    · subst hc
      rw [repair2_rb]
      rcases hz : (cs.span regexWs).2 with _ | ⟨z0, z1⟩ <;> simp only [hz]
      · rfl
      · by_cases hz0 : z0 = ']'
        · simp only [if_pos hz0]; rfl
        · simp only [if_neg hz0]; rfl
    · rw [repair2_cons_ne c cs hc]; rfl

/-- The third repair preserves the head character. -/
theorem repair3_head (l : List Char) : (repair3 l).head? = l.head? := by
  rcases l with _ | ⟨c, cs⟩
  · rfl
  · by_cases hc : c = '['
    · subst hc
      rw [repair3_lb]
      rcases hz : (cs.span regexWs).2 with _ | ⟨z0, z1⟩ <;> simp only [hz]
      · rfl
      · by_cases hz0 : z0 = '{'
        · simp only [if_pos hz0]; rfl
        · simp only [if_neg hz0]; rfl
    · rw [repair3_cons_ne c cs hc]; rfl

/-- The third repair walks through a bracket-open-free prefix untouched. -/
theorem repair3_append_no_lb (xs r : List Char) (h : ∀ x ∈ xs, ¬ x = '[') :
    repair3 (xs ++ r) = xs ++ repair3 r := by
  induction xs with
  | nil => simp
  | cons c xs' ih =>
    rw [List.cons_append, repair3_cons_ne c _ (h c (by simp)),
      ih (fun x hx => h x (by simp [hx])), List.cons_append]

/-- The first character surviving a whitespace skip inside a
quote-terminated block is either from the block or the quote itself. -/
theorem head_dropWhile_quote :
    ∀ (l y : List Char) z0, ((l ++ '"' :: y).dropWhile regexWs).head? = some z0 →
      z0 ∈ l ∨ z0 = '"' := by
  intro l
  induction l with
  | nil =>
    intro y z0 h
    rw [List.nil_append, List.dropWhile_cons_of_neg (by decide)] at h
    cases h
    exact Or.inr rfl
  | cons c l' ih =>
    intro y z0 h
    rw [List.cons_append] at h
    by_cases hc : regexWs c
    · rw [List.dropWhile_cons_of_pos hc] at h
      rcases ih y z0 h with h' | h'
      · exact Or.inl (by simp [h'])
      · exact Or.inr h'
    · rw [List.dropWhile_cons_of_neg hc] at h
      cases h
      exact Or.inl (by simp)

/-- The third repair walks through a brace-open-free string body closed by
a quote untouched: the lookahead after any bracket-open inside the body
stops at a body character or the closing quote, never at a brace-open. -/
theorem repair3_through_str (b : List Char) :
    ∀ y, (∀ x ∈ b, ¬ x = '{') →
      repair3 (b ++ '"' :: y) = b ++ '"' :: repair3 y := by
  induction b with
  | nil =>
    intro y _
    exact repair3_cons_ne '"' y (by decide)
  | cons c b' ih =>
    intro y hb
    by_cases hc : c = '['
    · subst hc
      rw [List.cons_append, repair3_lb]
      rcases hz : ((b' ++ '"' :: y).span regexWs).2 with _ | ⟨z0, z1⟩
      · simp only [hz]
        rw [ih y (fun x hx => hb x (by simp [hx]))]
        rfl
      · simp only [hz]
        have hz0 : ¬ z0 = '{' := by
          have hh : ((b' ++ '"' :: y).dropWhile regexWs).head? = some z0 := by
            simp only [List.span_eq_take_drop] at hz
            rw [hz]
            rfl
          rcases head_dropWhile_quote b' y z0 hh with hmem | rfl
          · exact hb z0 (by simp [hmem])
          · decide
        simp only [if_neg hz0]
        rw [ih y (fun x hx => hb x (by simp [hx]))]
        rfl
    · rw [List.cons_append, repair3_cons_ne c _ hc,
        ih y (fun x hx => hb x (by simp [hx])), List.cons_append]

/-- On input that tokenizes to a token list in which a brace-close is
never directly followed by a brace-open and whose string literals are
brace-free, the comma-inserting first repair is the identity. -/
theorem repair1_preserves (n : Nat) :
    ∀ l ts, l.length ≤ n → tokenize l = some ts → List.Chain' okTok ts →
      strFree ts = true → repair1 l = l := by
  induction n with
  | zero =>
    intro l ts hn _ _ _
    rcases l with _ | ⟨c, cs⟩
    · rfl
    · simp only [List.length_cons] at hn; omega
  | succ n ih =>
    intro l ts hn htok hch hsf
    rcases l with _ | ⟨c, cs⟩
    · rfl
    · rw [tokenize_cons] at htok
      simp only [List.length_cons] at hn
      cases hlex : lexOne c cs with
      | fail => rw [hlex] at htok; cases htok
      | skip rest =>
        rw [hlex] at htok
        dsimp only at htok
        obtain ⟨hws, rfl⟩ := lexOne_skip_inv c cs rest hlex
        have hc : ¬ c = '}' := by
          intro he; subst he; exact absurd hws (by decide)
        rw [repair1_cons_ne c rest hc, ih rest ts (by omega) htok hch hsf]
      | emit t rest =>
        rw [hlex] at htok
        dsimp only at htok
        rcases hmap : tokenize rest with _ | ts' <;> rw [hmap] at htok <;>
          simp only [Option.map_some', Option.map_none'] at htok
        · cases htok
        · cases htok
          obtain ⟨hbf, hsf'⟩ := strFree_cons t ts' hsf
          have hch' : List.Chain' okTok ts' := hch.tail
          rcases lexOne_emit_inv c cs t rest hlex with
            hd1 | hd2 | hd3 | hd4 | hd5 | hd6 | ⟨b, rfl, rfl, rfl, hbq⟩ |
            ⟨mid, hcd, rfl, hmid, hrh, hrelex⟩ | (hd9 | hd10 | hd11)
          · obtain ⟨rfl, rfl, rfl⟩ := hd1
            rw [repair1_cons_ne '[' rest (by decide), ih rest ts' (by omega) hmap hch' hsf']
          · obtain ⟨rfl, rfl, rfl⟩ := hd2
            rw [repair1_cons_ne ']' rest (by decide), ih rest ts' (by omega) hmap hch' hsf']
          · obtain ⟨rfl, rfl, rfl⟩ := hd3
            rw [repair1_cons_ne '{' rest (by decide), ih rest ts' (by omega) hmap hch' hsf']
          · -- the brace-close case: the lookahead cannot find a brace-open
            obtain ⟨rfl, rfl, rfl⟩ := hd4
            rw [repair1_rb]
            rcases hz : (rest.span regexWs).2 with _ | ⟨z0, z1⟩ <;> simp only [hz]
            · rw [ih rest ts' (by omega) hmap hch' hsf']
            · by_cases hz0 : z0 = '{'
              · exfalso
                subst hz0
                have hcs : rest = rest.takeWhile regexWs ++ '{' :: z1 := by
                  simp only [List.span_eq_take_drop] at hz
                  conv_lhs => rw [← List.takeWhile_append_dropWhile
                    (p := regexWs) (l := rest)]
                  rw [hz]
                have htk : tokenize ('{' :: z1) = some ts' := by
                  apply tokenize_ws_prefix (rest.takeWhile regexWs) _ _
                    (fun d hd => List.mem_takeWhile_imp hd)
                  rw [← hcs]
                  exact hmap
                rw [tokenize_cons, lexOne_lbrace_eq] at htk
                dsimp only at htk
                rcases hm2 : tokenize z1 with _ | ts'' <;> rw [hm2] at htk <;>
                  simp only [Option.map_some', Option.map_none'] at htk
                · cases htk
                · cases htk
                  rcases (List.chain'_cons.mp hch).1 with hbad | hbad <;>
                    exact hbad rfl
              · simp only [if_neg hz0]
                rw [ih rest ts' (by omega) hmap hch' hsf']
          · obtain ⟨rfl, rfl, rfl⟩ := hd5
            rw [repair1_cons_ne ',' rest (by decide), ih rest ts' (by omega) hmap hch' hsf']
          · obtain ⟨rfl, rfl, rfl⟩ := hd6
            rw [repair1_cons_ne ':' rest (by decide), ih rest ts' (by omega) hmap hch' hsf']
          · -- string literal: its body is brace-free, so the walk is inert
            have hbfree := braceFree_str b hbf
            rw [repair1_cons_ne '"' _ (by decide)]
            have hxs : ∀ x ∈ b ++ ['"'], ¬ x = '}' := by
              intro x hx
              rcases List.mem_append.mp hx with hx | hx
              · exact (hbfree x hx).2
              · simp only [List.mem_singleton] at hx; subst hx; decide
            have heq : b ++ '"' :: rest = (b ++ ['"']) ++ rest := by simp
            rw [heq, repair1_append_no_rb _ _ hxs,
              ih rest ts'
                (by simp only [List.length_append, List.length_cons,
                  List.length_singleton] at hn ⊢; omega)
                hmap hch' hsf']
          · -- number: digits are not braces
            have hc : ¬ c = '}' := by
              rcases hcd with hd | rfl
              · intro he; subst he; exact absurd hd (by decide)
              · decide
            have hmid' : ∀ x ∈ mid, ¬ x = '}' := by
              intro x hx he
              subst he
              exact absurd (hmid _ hx) (by decide)
            rw [repair1_cons_ne c _ hc, repair1_append_no_rb mid rest hmid',
              ih rest ts'
                (by simp only [List.length_append] at hn; omega)
                hmap hch' hsf']
          · obtain ⟨rfl, rfl, rfl⟩ := hd9
            rw [repair1_cons_ne 't' _ (by decide), repair1_cons_ne 'r' _ (by decide),
              repair1_cons_ne 'u' _ (by decide), repair1_cons_ne 'e' _ (by decide),
              ih rest ts' (by simp only [List.length_cons] at hn; omega)
                hmap hch' hsf']
          · obtain ⟨rfl, rfl, rfl⟩ := hd10
            rw [repair1_cons_ne 'f' _ (by decide), repair1_cons_ne 'a' _ (by decide),
              repair1_cons_ne 'l' _ (by decide), repair1_cons_ne 's' _ (by decide),
              repair1_cons_ne 'e' _ (by decide),
              ih rest ts' (by simp only [List.length_cons] at hn; omega)
                hmap hch' hsf']
          · obtain ⟨rfl, rfl, rfl⟩ := hd11
            rw [repair1_cons_ne 'n' _ (by decide), repair1_cons_ne 'u' _ (by decide),
              repair1_cons_ne 'l' _ (by decide), repair1_cons_ne 'l' _ (by decide),
              ih rest ts' (by simp only [List.length_cons] at hn; omega)
                hmap hch' hsf']

/-- On input that tokenizes with brace-free string literals, the second
repair (which deletes whitespace between a brace-close and a
bracket-close) does not change the token stream. -/
theorem repair2_preserves (n : Nat) :
    ∀ l ts, l.length ≤ n → tokenize l = some ts → strFree ts = true →
      tokenize (repair2 l) = some ts := by
  induction n with
  | zero =>
    intro l ts hn htok _
    rcases l with _ | ⟨c, cs⟩
    · exact htok
    · simp only [List.length_cons] at hn; omega
  | succ n ih =>
    intro l ts hn htok hsf
    rcases l with _ | ⟨c, cs⟩
    · exact htok
    · rw [tokenize_cons] at htok
      simp only [List.length_cons] at hn
      cases hlex : lexOne c cs with
      | fail => rw [hlex] at htok; cases htok
      | skip rest =>
        rw [hlex] at htok
        dsimp only at htok
        obtain ⟨hws, rfl⟩ := lexOne_skip_inv c cs rest hlex
        have hc : ¬ c = '}' := by
          intro he; subst he; exact absurd hws (by decide)
        rw [repair2_cons_ne c rest hc, tokenize_cons, lexOne_ws c _ hws]
        exact ih rest ts (by omega) htok hsf
      | emit t rest =>
        rw [hlex] at htok
        dsimp only at htok
        rcases hmap : tokenize rest with _ | ts' <;> rw [hmap] at htok <;>
          simp only [Option.map_some', Option.map_none'] at htok
        · cases htok
        · cases htok
          obtain ⟨hbf, hsf'⟩ := strFree_cons t ts' hsf
          rcases lexOne_emit_inv c cs t rest hlex with
            hd1 | hd2 | hd3 | hd4 | hd5 | hd6 | ⟨b, rfl, rfl, rfl, hbq⟩ |
            ⟨mid, hcd, rfl, hmid, hrh, hrelex⟩ | (hd9 | hd10 | hd11)
          · obtain ⟨rfl, rfl, rfl⟩ := hd1
            rw [repair2_cons_ne '[' rest (by decide), tokenize_cons, lexOne_lbrack_eq]
            dsimp only
            rw [ih rest ts' (by omega) hmap hsf']
            rfl
          · obtain ⟨rfl, rfl, rfl⟩ := hd2
            rw [repair2_cons_ne ']' rest (by decide), tokenize_cons, lexOne_rbrack_eq]
            dsimp only
            rw [ih rest ts' (by omega) hmap hsf']
            rfl
          · obtain ⟨rfl, rfl, rfl⟩ := hd3
            rw [repair2_cons_ne '{' rest (by decide), tokenize_cons, lexOne_lbrace_eq]
            dsimp only
            rw [ih rest ts' (by omega) hmap hsf']
            rfl
          · -- brace-close: whitespace before a bracket-close is deleted,
            -- which the tokenizer never sees
            obtain ⟨rfl, rfl, rfl⟩ := hd4
            rw [repair2_rb]
            rcases hz : (rest.span regexWs).2 with _ | ⟨z0, z1⟩ <;> simp only [hz]
            · rw [tokenize_cons, lexOne_rbrace_eq]
              dsimp only
              rw [ih rest ts' (by omega) hmap hsf']
              rfl
            · by_cases hz0 : z0 = ']'
              · subst hz0
                rw [if_pos rfl]
                have hcs : rest = rest.takeWhile regexWs ++ ']' :: z1 := by
                  simp only [List.span_eq_take_drop] at hz
                  conv_lhs => rw [← List.takeWhile_append_dropWhile
                    (p := regexWs) (l := rest)]
                  rw [hz]
                have htk : tokenize (']' :: z1) = some ts' := by
                  apply tokenize_ws_prefix (rest.takeWhile regexWs) _ _
                    (fun d hd => List.mem_takeWhile_imp hd)
                  rw [← hcs]
                  exact hmap
                rw [tokenize_cons, lexOne_rbrack_eq] at htk
                dsimp only at htk
                rcases hm2 : tokenize z1 with _ | ts'' <;> rw [hm2] at htk <;>
                  simp only [Option.map_some', Option.map_none'] at htk
                · cases htk
                · cases htk
                  obtain ⟨_, hsf''⟩ := strFree_cons _ _ hsf'
                  have hz1 : z1.length ≤ n := by
                    have := congrArg List.length hcs
                    simp only [List.length_append, List.length_cons] at this
                    omega
                  rw [tokenize_cons, lexOne_rbrace_eq]
                  dsimp only
                  rw [tokenize_cons, lexOne_rbrack_eq]
                  dsimp only
                  rw [ih z1 ts'' hz1 hm2 hsf'']
                  rfl
              · rw [if_neg hz0, tokenize_cons, lexOne_rbrace_eq]
                dsimp only
                rw [ih rest ts' (by omega) hmap hsf']
                rfl
          · obtain ⟨rfl, rfl, rfl⟩ := hd5
            rw [repair2_cons_ne ',' rest (by decide), tokenize_cons, lexOne_comma_eq]
            dsimp only
            rw [ih rest ts' (by omega) hmap hsf']
            rfl
          · obtain ⟨rfl, rfl, rfl⟩ := hd6
            rw [repair2_cons_ne ':' rest (by decide), tokenize_cons, lexOne_colon_eq]
            dsimp only
            rw [ih rest ts' (by omega) hmap hsf']
            rfl
          · -- string literal: brace-free body, so the walk is inert and
            -- the body re-lexes to the same token
            have hbfree := braceFree_str b hbf
            have hxs : ∀ x ∈ b ++ ['"'], ¬ x = '}' := by
              intro x hx
              rcases List.mem_append.mp hx with hx | hx
              · exact (hbfree x hx).2
              · simp only [List.mem_singleton] at hx; subst hx; decide
            have heq : b ++ '"' :: rest = (b ++ ['"']) ++ rest := by simp
            rw [repair2_cons_ne '"' _ (by decide), heq,
              repair2_append_no_rb _ _ hxs]
            have hX : (b ++ ['"']) ++ repair2 rest = b ++ '"' :: repair2 rest := by
              simp
            rw [hX, tokenize_cons, lexOne_quote b (repair2 rest) hbq]
            dsimp only
            rw [ih rest ts'
              (by simp only [List.length_append, List.length_cons,
                List.length_singleton] at hn; omega)
              hmap hsf']
            rfl
          · -- number: digits pass through and the digit run re-lexes
            have hc : ¬ c = '}' := by
              rcases hcd with hd | rfl
              · intro he; subst he; exact absurd hd (by decide)
              · decide
            have hmid' : ∀ x ∈ mid, ¬ x = '}' := by
              intro x hx he
              subst he
              exact absurd (hmid _ hx) (by decide)
            rw [repair2_cons_ne c _ hc, repair2_append_no_rb mid rest hmid',
              tokenize_cons]
            have hhead : ∀ h0, (repair2 rest).head? = some h0 →
                h0.isDigit = false := by
              intro h0 hh
              rw [repair2_head] at hh
              exact hrh h0 hh
            rw [hrelex (repair2 rest) hhead]
            dsimp only
            rw [ih rest ts'
              (by simp only [List.length_append] at hn; omega) hmap hsf']
            rfl
          · obtain ⟨rfl, rfl, rfl⟩ := hd9
            rw [repair2_cons_ne 't' _ (by decide), repair2_cons_ne 'r' _ (by decide),
              repair2_cons_ne 'u' _ (by decide), repair2_cons_ne 'e' _ (by decide),
              tokenize_cons, lexOne_true_eq]
            dsimp only
            rw [ih rest ts' (by simp only [List.length_cons] at hn; omega) hmap hsf']
            rfl
          · obtain ⟨rfl, rfl, rfl⟩ := hd10
            rw [repair2_cons_ne 'f' _ (by decide), repair2_cons_ne 'a' _ (by decide),
              repair2_cons_ne 'l' _ (by decide), repair2_cons_ne 's' _ (by decide),
              repair2_cons_ne 'e' _ (by decide), tokenize_cons, lexOne_false_eq]
            dsimp only
            rw [ih rest ts' (by simp only [List.length_cons] at hn; omega) hmap hsf']
            rfl
          · obtain ⟨rfl, rfl, rfl⟩ := hd11
            rw [repair2_cons_ne 'n' _ (by decide), repair2_cons_ne 'u' _ (by decide),
              repair2_cons_ne 'l' _ (by decide), repair2_cons_ne 'l' _ (by decide),
              tokenize_cons, lexOne_null_eq]
            dsimp only
            rw [ih rest ts' (by simp only [List.length_cons] at hn; omega) hmap hsf']
            rfl

/-- On input that tokenizes with brace-free string literals, the third
repair (which, at the first bracket-open followed by whitespace and a
brace-open, deletes that whitespace) does not change the token stream. -/
theorem repair3_preserves (n : Nat) :
    ∀ l ts, l.length ≤ n → tokenize l = some ts → strFree ts = true →
      tokenize (repair3 l) = some ts := by
  induction n with
  | zero =>
    intro l ts hn htok _
    rcases l with _ | ⟨c, cs⟩
    · exact htok
    · simp only [List.length_cons] at hn; omega
  | succ n ih =>
    intro l ts hn htok hsf
    rcases l with _ | ⟨c, cs⟩
    · exact htok
    · rw [tokenize_cons] at htok
      simp only [List.length_cons] at hn
      cases hlex : lexOne c cs with
      | fail => rw [hlex] at htok; cases htok
      | skip rest =>
        rw [hlex] at htok
        dsimp only at htok
        obtain ⟨hws, rfl⟩ := lexOne_skip_inv c cs rest hlex
        have hc : ¬ c = '[' := by
          intro he; subst he; exact absurd hws (by decide)
        rw [repair3_cons_ne c rest hc, tokenize_cons, lexOne_ws c _ hws]
        exact ih rest ts (by omega) htok hsf
      | emit t rest =>
        rw [hlex] at htok
        dsimp only at htok
        rcases hmap : tokenize rest with _ | ts' <;> rw [hmap] at htok <;>
          simp only [Option.map_some', Option.map_none'] at htok
        · cases htok
        · cases htok
          obtain ⟨hbf, hsf'⟩ := strFree_cons t ts' hsf
          rcases lexOne_emit_inv c cs t rest hlex with
            hd1 | hd2 | hd3 | hd4 | hd5 | hd6 | ⟨b, rfl, rfl, rfl, hbq⟩ |
            ⟨mid, hcd, rfl, hmid, hrh, hrelex⟩ | (hd9 | hd10 | hd11)
          · -- bracket-open: whitespace before a brace-open is deleted,
            -- which the tokenizer never sees; the repair then stops
            obtain ⟨rfl, rfl, rfl⟩ := hd1
            rw [repair3_lb]
            rcases hz : (rest.span regexWs).2 with _ | ⟨z0, z1⟩ <;> simp only [hz]
            · rw [tokenize_cons, lexOne_lbrack_eq]
              dsimp only
              rw [ih rest ts' (by omega) hmap hsf']
              rfl
            · by_cases hz0 : z0 = '{'
              · subst hz0
                rw [if_pos rfl]
                have hcs : rest = rest.takeWhile regexWs ++ '{' :: z1 := by
                  simp only [List.span_eq_take_drop] at hz
                  conv_lhs => rw [← List.takeWhile_append_dropWhile
                    (p := regexWs) (l := rest)]
                  rw [hz]
                have htk : tokenize ('{' :: z1) = some ts' := by
                  apply tokenize_ws_prefix (rest.takeWhile regexWs) _ _
                    (fun d hd => List.mem_takeWhile_imp hd)
                  rw [← hcs]
                  exact hmap
                rw [tokenize_cons, lexOne_lbrack_eq]
                dsimp only
                rw [htk]
                rfl
              · rw [if_neg hz0, tokenize_cons, lexOne_lbrack_eq]
                dsimp only
                rw [ih rest ts' (by omega) hmap hsf']
                rfl
          · obtain ⟨rfl, rfl, rfl⟩ := hd2
            rw [repair3_cons_ne ']' rest (by decide), tokenize_cons, lexOne_rbrack_eq]
            dsimp only
            rw [ih rest ts' (by omega) hmap hsf']
            rfl
          · obtain ⟨rfl, rfl, rfl⟩ := hd3
            rw [repair3_cons_ne '{' rest (by decide), tokenize_cons, lexOne_lbrace_eq]
            dsimp only
            rw [ih rest ts' (by omega) hmap hsf']
            rfl
          · obtain ⟨rfl, rfl, rfl⟩ := hd4
            rw [repair3_cons_ne '}' rest (by decide), tokenize_cons, lexOne_rbrace_eq]
            dsimp only
            rw [ih rest ts' (by omega) hmap hsf']
            rfl
          · obtain ⟨rfl, rfl, rfl⟩ := hd5
            rw [repair3_cons_ne ',' rest (by decide), tokenize_cons, lexOne_comma_eq]
            dsimp only
            rw [ih rest ts' (by omega) hmap hsf']
            rfl
          · obtain ⟨rfl, rfl, rfl⟩ := hd6
            rw [repair3_cons_ne ':' rest (by decide), tokenize_cons, lexOne_colon_eq]
            dsimp only
            rw [ih rest ts' (by omega) hmap hsf']
            rfl
          · -- string literal: brace-free body, so the walk is inert and
            -- the body re-lexes to the same token
            have hbfree := braceFree_str b hbf
            rw [repair3_cons_ne '"' _ (by decide),
              repair3_through_str b rest (fun x hx => (hbfree x hx).1),
              tokenize_cons, lexOne_quote b (repair3 rest) hbq]
            dsimp only
            rw [ih rest ts'
              (by simp only [List.length_append, List.length_cons] at hn; omega)
              hmap hsf']
            rfl
          · -- number: digits pass through and the digit run re-lexes
            have hc : ¬ c = '[' := by
              rcases hcd with hd | rfl
              · intro he; subst he; exact absurd hd (by decide)
              · decide
            have hmid' : ∀ x ∈ mid, ¬ x = '[' := by
              intro x hx he
              subst he
              exact absurd (hmid _ hx) (by decide)
            rw [repair3_cons_ne c _ hc, repair3_append_no_lb mid rest hmid',
              tokenize_cons]
            have hhead : ∀ h0, (repair3 rest).head? = some h0 →
                h0.isDigit = false := by
              intro h0 hh
              rw [repair3_head] at hh
              exact hrh h0 hh
            rw [hrelex (repair3 rest) hhead]
            dsimp only
            rw [ih rest ts'
              (by simp only [List.length_append] at hn; omega) hmap hsf']
            rfl
          · obtain ⟨rfl, rfl, rfl⟩ := hd9
            rw [repair3_cons_ne 't' _ (by decide), repair3_cons_ne 'r' _ (by decide),
              repair3_cons_ne 'u' _ (by decide), repair3_cons_ne 'e' _ (by decide),
              tokenize_cons, lexOne_true_eq]
            dsimp only
            rw [ih rest ts' (by simp only [List.length_cons] at hn; omega) hmap hsf']
            rfl
          · obtain ⟨rfl, rfl, rfl⟩ := hd10
            rw [repair3_cons_ne 'f' _ (by decide), repair3_cons_ne 'a' _ (by decide),
              repair3_cons_ne 'l' _ (by decide), repair3_cons_ne 's' _ (by decide),
              repair3_cons_ne 'e' _ (by decide), tokenize_cons, lexOne_false_eq]
            dsimp only
            rw [ih rest ts' (by simp only [List.length_cons] at hn; omega) hmap hsf']
            rfl
          · obtain ⟨rfl, rfl, rfl⟩ := hd11
            rw [repair3_cons_ne 'n' _ (by decide), repair3_cons_ne 'u' _ (by decide),
              repair3_cons_ne 'l' _ (by decide), repair3_cons_ne 'l' _ (by decide),
              tokenize_cons, lexOne_null_eq]
            dsimp only
            rw [ih rest ts' (by simp only [List.length_cons] at hn; omega) hmap hsf']
            rfl

/-- C4 (amended): the structured-mode repair chain is inert on already
valid input whose string literals contain no brace characters: for every
text that tokenizes to a token list with brace-free string literals and
parses as a comma-separated array of flat objects, decoding the repaired
text yields the same value as decoding the original text. -/
theorem structured_repair_idempotent (s : List Char) (ts : List Tok) (v : List JObj)
    (htok : tokenize s = some ts) (hdec : parseToks ts = some v)
    (hsf : strFree ts = true) :
    jsonDecode (correctedJson s) = jsonDecode s := by
  have hch := parseToks_chain ts v hdec
  have h1 : repair1 s = s := repair1_preserves s.length s ts le_rfl htok hch hsf
  have h2 : tokenize (repair2 s) = some ts :=
    repair2_preserves s.length s ts le_rfl htok hsf
  have h3 : tokenize (repair3 (repair2 s)) = some ts :=
    repair3_preserves (repair2 s).length (repair2 s) ts le_rfl h2 hsf
  unfold correctedJson jsonDecode
  rw [h1, h3, htok]

theorem structured_repair_idempotent_witness :
    jsonDecode (correctedJson validArrayText.data) =
      jsonDecode validArrayText.data :=
  structured_repair_idempotent validArrayText.data
    [Tok.lbrack, Tok.lbrace, Tok.str ['p', 'i', 'd'], Tok.colon, Tok.num 1,
      Tok.rbrace, Tok.comma, Tok.lbrace, Tok.str ['p', 'i', 'd'], Tok.colon,
      Tok.num 2, Tok.rbrace, Tok.rbrack]
    [[("pid", JValue.num 1)], [("pid", JValue.num 2)]]
    (by decide) (by decide) (by decide)

/-- C4 counterexample: the text bracket-brace-quote-a-quote-colon-quote,
a close brace, an open brace, then quote-close brace-bracket is a
correctly comma-separated JSON array of one non-nested object, yet the
repair chain inserts a comma inside its string literal: decoding the
repaired text yields a different value than decoding the original. -/
theorem structured_repair_changes_brace_string :
    (jsonDecode braceValueText.data).isSome = true ∧
    ¬ jsonDecode (correctedJson braceValueText.data) =
        jsonDecode braceValueText.data := by
  decide
